import Mathlib

/-!
Verification of the Zoho-Creator-Picture-Sync batch synchronization core.

This file gives a shallow embedding, in Lean 4, of the parts of the
repository that the frozen claims talk about:

* `src/backend/sync/processor.py`   — the image normalizer (`ImageProcessor`)
* `src/backend/zoho/client.py`      — the retry decorator and the request path
* `src/backend/db/models.py`        — `ImageRepository.image_exists` / `upsert_image`
                                      and the batch state ledger
* `src/backend/sync/batch_engine.py`— the batch sync controller
                                      (`BatchSyncEngine.run_batch_sync`,
                                      `_process_batch`, `_process_record`)

External collaborators (the PIL image library, the HTTP stack, the Supabase
storage bucket, wall-clock time, the out-of-band pause/cancel signal table)
are modelled as explicit oracle parameters; machine-level details of the host
language (Python dict iteration order for `extract_image_fields`, datetime
formatting) are abstracted behind those oracles.  Pure control flow, counter
arithmetic, ordering of persistence and status updates, and the error-log
shapes are translated statement by statement from the Python source.
-/

namespace PicSync

/-! ### Image normalizer — `src/backend/sync/processor.py`

Bytes are modelled as `List Nat` (one entry per byte value).  The PIL
library is an external collaborator: `decode` returns the decoded image's
header data (`none` models a PIL exception on `Image.open`), `encodeWebP`
models `img.save(output, format="WEBP", quality=...)`.  Pixel contents are
abstract; width/height/mode/format are the data the source code inspects. -/

/-- A decoded PIL image, as far as the processor inspects it:
`img.size`, `img.mode`, `img.format`. -/
structure PILImage where
  width : Nat
  height : Nat
  mode : String
  format : String
deriving Repr, DecidableEq

/-- The PIL collaborator: `Image.open` (`none` = decode exception) and the
WebP encoder (`img.save(..., format="WEBP", quality=q)`). -/
structure PILEnv where
  decode : List Nat → Option PILImage
  encodeWebP : PILImage → Nat → List Nat

/-- `ImageProcessor.__init__`: `max_dimension`, `quality`,
`max_size_bytes = max_size_mb * 1024 * 1024` (processor.py lines 17-20). -/
structure ImageProcessor where
  max_dimension : Nat
  quality : Nat
  max_size_bytes : Nat
deriving Repr, DecidableEq

/-- `ImageProcessor(max_dimension=4000, quality=85, max_size_mb=5)` defaults. -/
def ImageProcessor.default : ImageProcessor :=
  { max_dimension := 4000, quality := 85, max_size_bytes := 5 * 1024 * 1024 }

/-- `needs_processing`: `len(image_bytes) > self.max_size_bytes`
(processor.py line 22-23). -/
def ImageProcessor.needs_processing (p : ImageProcessor) (image_bytes : List Nat) : Bool :=
  p.max_size_bytes < image_bytes.length

/-- `original_filename.rsplit(".", 1)[0] if "." in original_filename else
original_filename`: the part of the name before the last dot
(processor.py line 56 and line 89). -/
def baseNameChars : List Char → List Char
  | [] => []
  | c :: cs =>
    if c = '.' ∧ ¬ cs.contains '.' then []
    else c :: baseNameChars cs

/-- String form of `rsplit(".", 1)[0]`-with-fallback. -/
def baseName (s : String) : String :=
  if s.toList.contains '.' then ⟨baseNameChars s.toList⟩ else s

/-- Python `str.lower()` on the character list (ASCII case folding as used
for extension comparison). -/
def lowerStr (s : String) : String := ⟨s.toList.map Char.toLower⟩

/-- Python `str.endswith(t)`. -/
def strEndsWith (s t : String) : Bool := t.toList.reverse.isPrefixOf s.toList.reverse

/-- Python `str.startswith(t)`. -/
def strStartsWith (s t : String) : Bool := t.toList.isPrefixOf s.toList

/-- The resize arithmetic of `ImageProcessor.process` (processor.py lines
45-46): `ratio = min(self.max_dimension / width, self.max_dimension / height)`
and `new_size = (int(width * ratio), int(height * ratio))`.  Python's float
division and `int` truncation are modelled with exact rationals and `Int.floor`
(for the dimensions involved both agree; see the claim instances). -/
def resizeDims (maxDim width height : Nat) : Nat × Nat :=
  let ratio : ℚ := min ((maxDim : ℚ) / width) ((maxDim : ℚ) / height)
  ((⌊(width : ℚ) * ratio⌋).toNat, (⌊(height : ℚ) * ratio⌋).toNat)

/-- `ImageProcessor.process` (processor.py lines 25-63): decode — on failure
return input unchanged; convert `RGBA`/`P` modes to `RGB`; resize when either
dimension exceeds `max_dimension`; re-encode as WebP; rename the extension
to `.webp`. -/
def ImageProcessor.process (p : ImageProcessor) (env : PILEnv)
    (image_bytes : List Nat) (original_filename : String) : List Nat × String :=
  match env.decode image_bytes with
  | none => (image_bytes, original_filename)
  | some img0 =>
    let img1 := if img0.mode = "RGBA" ∨ img0.mode = "P"
      then { img0 with mode := "RGB" } else img0
    let img2 :=
      if p.max_dimension < img1.width ∨ p.max_dimension < img1.height then
        let ns := resizeDims p.max_dimension img1.width img1.height
        { img1 with width := ns.1, height := ns.2 }
      else img1
    (env.encodeWebP img2 p.quality, baseName original_filename ++ ".webp")

/-- `_detect_format` (processor.py lines 92-127): magic-byte sniffing with a
PIL fallback (the decoder's self-reported format), defaulting to `.jpg`. -/
def ImageProcessor.detect_format (env : PILEnv) (image_bytes : List Nat) : String :=
  if image_bytes.length < 12 then ".jpg"
  else if image_bytes.take 3 = [0xff, 0xd8, 0xff] then ".jpg"
  else if image_bytes.take 8 = [0x89, 0x50, 0x4e, 0x47, 0x0d, 0x0a, 0x1a, 0x0a] then ".png"
  else if image_bytes.take 6 = [0x47, 0x49, 0x46, 0x38, 0x37, 0x61]
       ∨ image_bytes.take 6 = [0x47, 0x49, 0x46, 0x38, 0x39, 0x61] then ".gif"
  else if image_bytes.take 4 = [0x52, 0x49, 0x46, 0x46]
       ∧ ((image_bytes.drop 8).take 4 = [0x57, 0x45, 0x42, 0x50]) then ".webp"
  else if (image_bytes.drop 4).take 8 = [0x66, 0x74, 0x79, 0x70, 0x68, 0x65, 0x69, 0x63]
       ∨ (image_bytes.drop 4).take 8 = [0x66, 0x74, 0x79, 0x70, 0x6d, 0x69, 0x66, 0x31] then ".heic"
  else if image_bytes.take 2 = [0x42, 0x4d] then ".bmp"
  else if image_bytes.take 4 = [0x49, 0x49, 0x2a, 0x00]
       ∨ image_bytes.take 4 = [0x4d, 0x4d, 0x00, 0x2a] then ".tiff"
  else
    match env.decode image_bytes with
    | none => ".jpg"
    | some img =>
      if img.format = "JPEG" then ".jpg"
      else if img.format = "PNG" then ".png"
      else if img.format = "GIF" then ".gif"
      else if img.format = "WEBP" then ".webp"
      else if img.format = "HEIC" then ".heic"
      else if img.format = "BMP" then ".bmp"
      else if img.format = "TIFF" then ".tiff"
      else ".jpg"

/-- The known image extensions checked by `_ensure_extension`
(processor.py line 82). -/
def imageExtensions : List String :=
  [".jpg", ".jpeg", ".png", ".gif", ".webp", ".heic", ".bmp", ".tiff"]

/-- `_ensure_extension` (processor.py lines 78-90): keep a filename that
already ends in an image extension (case-insensitively); otherwise detect
from magic bytes and replace the (non-image) extension. -/
def ImageProcessor.ensure_extension (env : PILEnv)
    (image_bytes : List Nat) (filename : String) : String :=
  let lower_name := lowerStr filename
  if imageExtensions.any (fun ext => strEndsWith lower_name ext) then filename
  else baseName filename ++ ImageProcessor.detect_format env image_bytes

/-- `process_if_needed` (processor.py lines 65-76): run `process` only when
`needs_processing`; otherwise pass bytes through and only fix the filename
extension.  The third component is the source's `was_processed` flag. -/
def ImageProcessor.process_if_needed (p : ImageProcessor) (env : PILEnv)
    (image_bytes : List Nat) (filename : String) : List Nat × String × Bool :=
  if p.needs_processing image_bytes then
    let pr := p.process env image_bytes filename
    (pr.1, pr.2, true)
  else
    (image_bytes, ImageProcessor.ensure_extension env image_bytes filename, false)

/-! ### Remote record source client — `src/backend/zoho/client.py`

The HTTP stack is an oracle assigning an outcome to each attempt number.
`_make_request` performs exactly one attempt: the source defines a
`with_retry` decorator (tenacity, `stop_after_attempt(3)`, exponential
backoff) at lines 26-35 but never applies it to any method. -/

/-- Outcome of one HTTP attempt: a body, an HTTP error status
(`response.raise_for_status()` → `httpx.HTTPStatusError`), or a transport
failure (`httpx.RequestError`). -/
inductive ReqOutcome where
  | success (body : String)
  | httpError (status : Nat)
  | netError (msg : String)
deriving Repr, DecidableEq

/-- The HTTP collaborator: what the n-th attempt of a request returns. -/
structure HttpEnv where
  attempt : Nat → ReqOutcome

/-- Failure propagated to the caller of the request path. -/
inductive ReqError where
  | httpStatus (status : Nat)
  | network (msg : String)
deriving Repr, DecidableEq

/-- `_make_request` (client.py lines 92-103): rate-limiter wait, then a
single HTTP attempt; `raise_for_status` and transport failures propagate
directly.  No retry decorator is applied in the source, so exactly one
attempt is consumed.  Result is paired with the number of attempts used. -/
def makeRequest (env : HttpEnv) (firstAttempt : Nat) : Except ReqError String × Nat :=
  match env.attempt firstAttempt with
  | .success b => (.ok b, 1)
  | .httpError s => (.error (.httpStatus s), 1)
  | .netError m => (.error (.network m), 1)

/-- tenacity `wait_exponential(multiplier=1, min=2, max=30)` (client.py
line 31): seconds to wait before retry number k. -/
def retryWaitSeconds (k : Nat) : Nat := min 30 (max 2 (2 ^ k))

/-- What the `with_retry` decorator of client.py lines 26-35 would compute if
it were applied to `_make_request`: up to `remaining` attempts
(`stop_after_attempt(3)` passes 3), retrying on `HTTPStatusError` and
`RequestError` — i.e. on every failure of the model — and re-raising the
last failure (`reraise=True`).  Returns the result with attempts used. -/
def retriedRequest (env : HttpEnv) : Nat → Nat → Except ReqError String × Nat
  | 0, _ => (.error (.network "retry budget exhausted"), 0)
  | n + 1, i =>
    match env.attempt i with
    | .success b => (.ok b, 1)
    | .httpError s =>
      if n = 0 then (.error (.httpStatus s), 1)
      else
        let r := retriedRequest env n (i + 1)
        (r.1, r.2 + 1)
    | .netError m =>
      if n = 0 then (.error (.network m), 1)
      else
        let r := retriedRequest env n (i + 1)
        (r.1, r.2 + 1)

/-- The page-request step of `fetch_records` (client.py lines 126-135): only
a 429 status is caught (sleep 60s, retry the same page without advancing the
cursor); any other failure propagates.  `fuel` bounds the 429 loop so the
model is total.  Returns the result with HTTP attempts used. -/
def fetchPageRequest (env : HttpEnv) : Nat → Nat → Except ReqError String × Nat
  | 0, _ => (.error (.network "fuel exhausted"), 0)
  | fuel + 1, i =>
    match env.attempt i with
    | .success b => (.ok b, 1)
    | .httpError 429 =>
      let r := fetchPageRequest env fuel (i + 1)
      (r.1, r.2 + 1)
    | .httpError s => (.error (.httpStatus s), 1)
    | .netError m => (.error (.network m), 1)

/-! ### Data model — `src/backend/db/models.py`

`SyncedImage` rows live in the `images` table with a
`UNIQUE(zoho_record_id, field_name)` constraint; `image_exists` is a point
query on that key and `upsert_image` an upsert with
`on_conflict="zoho_record_id,field_name"`. -/

/-- One attachment reference, as produced by
`ZohoCreatorClient.extract_image_fields` (client.py lines 157-255):
`{field_name, download_url, filename}`. -/
structure Attachment where
  field_name : String
  download_url : String
  filename : String
deriving Repr, DecidableEq

/-- One remote record, as consumed by `_process_record`.  Timestamps are
abstract ordinals (`none` = absent or unparsable, the "log and treat as
absent" result of `_parse_zoho_datetime`).  `attachments` is the value of
`extract_image_fields(record)`, and `tags`/`category`/`description` are the
values derived from the configured tag/category/description fields
(batch_engine.py lines 272-283); the dynamic dict inspection itself is
plumbing outside the claims. -/
structure Record where
  id : String
  addedTime : Option Nat
  modifiedTime : Option Nat
  attachments : List Attachment
  tags : List String
  category : Option String
  description : Option String
deriving Repr, DecidableEq

/-- A `SyncedImage` row (models.py lines 121-137) restricted to the fields
the engine writes from pure data.  `synced_at` (wall clock) is abstracted. -/
structure SyncedImage where
  zoho_record_id : String
  field_name : String
  storage_path : String
  original_filename : String
  file_size_bytes : Nat
  was_processed : Bool
  tags : List String
  category : Option String
  description : Option String
deriving Repr, DecidableEq

/-- The storage bucket plus the `images` table: uploads performed
(`supabase.storage.from_(bucket).upload`, path and bytes) and the
`SyncedImage` rows. -/
structure World where
  images : List SyncedImage
  uploads : List (String × List Nat)
deriving Repr, DecidableEq

/-- `ImageRepository.image_exists` (models.py lines 100-104): a select on
`zoho_record_id = id AND field_name = f` is non-empty. -/
def imageExists (w : World) (recId fieldName : String) : Bool :=
  w.images.any (fun r => r.zoho_record_id = recId ∧ r.field_name = fieldName)

/-- Number of `images` rows with the given unique key. -/
def countKey (w : World) (recId fieldName : String) : Nat :=
  (w.images.filter (fun r => r.zoho_record_id = recId ∧ r.field_name = fieldName)).length

/-- `ImageRepository.upsert_image` (models.py lines 106-142): insert with
`on_conflict="zoho_record_id,field_name"` — replace the row with the same
key if present, append otherwise. -/
def upsertImage (w : World) (row : SyncedImage) : World :=
  if imageExists w row.zoho_record_id row.field_name then
    { w with images := w.images.map (fun r =>
        if r.zoho_record_id = row.zoho_record_id ∧ r.field_name = row.field_name
        then row else r) }
  else
    { w with images := w.images ++ [row] }

/-- One entry of a session's error log.  Attachment-level entries
(batch_engine.py lines 312-316 and 362-366) carry `record_id`, `field`,
`error` and no timestamp; record-level entries (lines 255-259) carry
`record_id`, `error`, `timestamp` and no field.  Wall-clock time is
abstracted: `timestamp = some ()` models the presence of the
`datetime.utcnow().isoformat()` value. -/
structure ErrEntry where
  record_id : Option String
  field : Option String
  error : String
  timestamp : Option Unit
deriving Repr, DecidableEq

/-- The `batch_sync_state` row (models.py lines 59-89) restricted to the
fields `run_batch_sync` reads and writes. -/
structure Session where
  status : String
  batch_size : Nat
  delay_between_batches : Int
  date_to : Option Nat
  dry_run : Bool
  current_offset : Nat
  batches_completed : Nat
  records_processed : Nat
  images_synced : Nat
  images_skipped : Nat
  errors : Nat
  error_log : List ErrEntry
deriving Repr, DecidableEq

/-- `BatchSyncRepository.set_status` (models.py lines 437-439). -/
def Session.setStatus (sess : Session) (s : String) : Session :=
  { sess with status := s }

/-- `BatchSyncRepository.append_errors` (models.py lines 441-450): append,
then keep only the most recent 1000 entries. -/
def Session.appendErrors (sess : Session) (new : List ErrEntry) : Session :=
  let combined := sess.error_log ++ new
  { sess with error_log :=
      if 1000 < combined.length then combined.drop (combined.length - 1000) else combined }

/-! ### Batch sync controller — `src/backend/sync/batch_engine.py` -/

/-- The engine's in-memory `stats` dict (batch_engine.py lines 115-121). -/
structure Stats where
  records_processed : Nat
  images_synced : Nat
  images_skipped : Nat
  errors : Nat
  batches_completed : Nat
deriving Repr, DecidableEq

/-- The stats loaded from the session row at the start of `run_batch_sync`. -/
def Session.loadStats (sess : Session) : Stats :=
  { records_processed := sess.records_processed
    images_synced := sess.images_synced
    images_skipped := sess.images_skipped
    errors := sess.errors
    batches_completed := sess.batches_completed }

/-- `update_batch_sync(batch_id, current_offset=..., batches_completed=...,
records_processed=..., images_synced=..., images_skipped=..., errors=...,
last_batch_completed_at=...)` as issued after each batch (batch_engine.py
lines 161-170 and 200-209).  The wall-clock field is abstracted. -/
def Session.persistProgress (sess : Session) (offset : Nat) (s : Stats) : Session :=
  { sess with
      current_offset := offset
      batches_completed := s.batches_completed
      records_processed := s.records_processed
      images_synced := s.images_synced
      images_skipped := s.images_skipped
      errors := s.errors }

/-- Observable actions of one `run_batch_sync` invocation, in order.
Cursor events (`skippedResume`, `filteredOut`, `enqueued`) mark how each
enumerated source record was classified; `persist` is an
`update_batch_sync` call carrying a `current_offset`; `statusSet` is a
`set_status` call; `upload`/`upsert` are the storage and table writes. -/
inductive Event where
  | statusSet (s : String)
  | persist (offset : Nat)
  | appendErrors (n : Nat)
  | batchStarted
  | recordProcessed (id : String)
  | upload (path : String)
  | upsert (recId fieldName : String)
  | skippedResume
  | filteredOut
  | enqueued (id : String)
  | sleepDelay
deriving Repr, DecidableEq

/-- External collaborators of the engine: the attachment downloader
(`ZohoCreatorClient.download_image`), the storage bucket upload, the PIL
library, `strftime("%Y-%m")` on creation timestamps, the handling of an
unexpected exception escaping record-level work (`recordFault r = some msg`
models `_process_record(r)` raising before the attachment loop), and the
process-wide pause/cancel signal table as read at the check made after the
n-th completed batch. -/
structure EngineEnv where
  download : String → Except String (List Nat)
  uploadFile : String → List Nat → Except String Unit
  pil : PILEnv
  formatYm : Nat → String
  recordFault : Record → Option String
  pauseSignal : Nat → Bool
  cancelSignal : Nat → Bool

/-- Engine configuration held by `BatchSyncEngine` plus the session config
loaded at batch_engine.py lines 104-109. -/
structure EngineCfg where
  processor : ImageProcessor
  batch_size : Nat
  delay_between_batches : Int
  date_to : Option Nat
  dry_run : Bool
  current_offset : Nat

/-- Mutable state threaded through `_process_batch`/`_process_record`:
the external world, the `stats` dict and the in-memory `error_log` list. -/
structure BState where
  world : World
  stats : Stats
  errorLog : List ErrEntry
deriving Repr, DecidableEq

/-- `download_url.startswith(("http://", "https://"))` guarded by the
falsiness check `not download_url` (batch_engine.py line 309). -/
def validUrl (url : String) : Bool :=
  ¬ url = "" ∧ (strStartsWith url "http://" ∨ strStartsWith url "https://")

/-- The process/path/upload/upsert step for one downloaded attachment
(batch_engine.py lines 322-358): normalize, build the storage path
`{category-or-"uncategorized"}/{YYYY-MM-or-"unknown"}/{record_id}_{filename}`,
upload to the bucket (an upload exception is caught at the attachment
level), then upsert the `SyncedImage` row and count `images_synced`.
(The content-type guess passed to the upload call is plumbing and is not
modelled.)  `afterUpload` is the part from the upload call on, taking the
upload outcome as its last argument. -/
def afterUpload (recId fieldName origFilename storage_path : String)
    (tags : List String) (category description : Option String)
    (pr : List Nat × String × Bool) (st : BState) :
    Except String Unit → BState × List Event
  | .error e =>
    ({ st with
        stats := { st.stats with errors := st.stats.errors + 1 }
        errorLog := st.errorLog ++
          [{ record_id := some recId, field := some fieldName
             error := e, timestamp := none }] }, [Event.upload storage_path])
  | .ok _ =>
    let row : SyncedImage :=
      { zoho_record_id := recId, field_name := fieldName
        storage_path := storage_path, original_filename := origFilename
        file_size_bytes := pr.1.length, was_processed := pr.2.2
        tags := tags, category := category, description := description }
    ({ st with
        world := upsertImage { st.world with uploads := st.world.uploads ++ [(storage_path, pr.1)] } row
        stats := { st.stats with images_synced := st.stats.images_synced + 1 } },
     [Event.upload storage_path, Event.upsert recId fieldName])

/-- Normalize the downloaded bytes, build the storage path and hand over to
`afterUpload` with the bucket's upload outcome (batch_engine.py lines
322-358). -/
def attachmentUpload (env : EngineEnv) (cfg : EngineCfg) (recId : String)
    (tags : List String) (category description : Option String)
    (zohoCreated : Option Nat) (a : Attachment) (image_bytes : List Nat)
    (st : BState) : BState × List Event :=
  let pr := cfg.processor.process_if_needed env.pil image_bytes a.filename
  let date_folder := match zohoCreated with
    | some t => env.formatYm t
    | none => "unknown"
  let cat_folder := category.getD "uncategorized"
  let storage_path := cat_folder ++ "/" ++ date_folder ++ "/" ++ recId ++ "_" ++ pr.2.1
  afterUpload recId a.field_name a.filename storage_path tags category description pr st
    (env.uploadFile storage_path pr.1)

/-- The body of the attachment loop of `_process_record` (batch_engine.py
lines 292-367) for a single attachment.  Returns the new state and the
writes performed. -/
def processAttachment (env : EngineEnv) (cfg : EngineCfg) (recId : String)
    (tags : List String) (category description : Option String)
    (zohoCreated : Option Nat) (a : Attachment) (st : BState) :
    BState × List Event :=
  if imageExists st.world recId a.field_name then
    ({ st with stats := { st.stats with images_skipped := st.stats.images_skipped + 1 } }, [])
  else if cfg.dry_run then
    ({ st with stats := { st.stats with images_synced := st.stats.images_synced + 1 } }, [])
  else if ¬ validUrl a.download_url then
    ({ st with
        stats := { st.stats with errors := st.stats.errors + 1 }
        errorLog := st.errorLog ++
          [{ record_id := some recId, field := some a.field_name
             error := "Invalid URL: " ++ a.download_url, timestamp := none }] }, [])
  else
    match env.download a.download_url with
    | .error e =>
      ({ st with
          stats := { st.stats with errors := st.stats.errors + 1 }
          errorLog := st.errorLog ++
            [{ record_id := some recId, field := some a.field_name
               error := e, timestamp := none }] }, [])
    | .ok image_bytes =>
      attachmentUpload env cfg recId tags category description zohoCreated a image_bytes st

/-- The attachment loop of `_process_record`. -/
def processAtts (env : EngineEnv) (cfg : EngineCfg) (recId : String)
    (tags : List String) (category description : Option String)
    (zohoCreated : Option Nat) : List Attachment → BState → BState × List Event
  | [], st => (st, [])
  | a :: as_, st =>
    let r1 := processAttachment env cfg recId tags category description zohoCreated a st
    let r2 := processAtts env cfg recId tags category description zohoCreated as_ r1.1
    (r2.1, r1.2 ++ r2.2)

/-- `_process_record` (batch_engine.py lines 262-367): derive metadata, then
run the attachment loop.  `env.recordFault rec = some e` models an
unexpected exception raised during the record-level work before the
attachment loop (caught one level up, in `_process_batch`). -/
def processRecord (env : EngineEnv) (cfg : EngineCfg) (rec : Record) (st : BState) :
    Except String (BState × List Event) :=
  match env.recordFault rec with
  | some e => .error e
  | none =>
    .ok (processAtts env cfg rec.id rec.tags rec.category rec.description
          rec.addedTime rec.attachments st)

/-- The record loop of `_process_batch` (batch_engine.py lines 248-260):
increment `records_processed`, call `_process_record`, and catch any
exception per record — incrementing `errors` and appending a
`{record_id, error, timestamp}` entry — before continuing with the next
record. -/
def processBatch (env : EngineEnv) (cfg : EngineCfg) :
    List Record → BState → BState × List Event
  | [], st => (st, [])
  | rec :: recs, st =>
    let st1 := { st with stats :=
      { st.stats with records_processed := st.stats.records_processed + 1 } }
    match processRecord env cfg rec st1 with
    | .ok (st2, evs) =>
      let r := processBatch env cfg recs st2
      (r.1, Event.recordProcessed rec.id :: evs ++ r.2)
    | .error e =>
      let st2 := { st1 with
        stats := { st1.stats with errors := st1.stats.errors + 1 }
        errorLog := st1.errorLog ++
          [{ record_id := some rec.id, field := none, error := e, timestamp := some () }] }
      let r := processBatch env cfg recs st2
      (r.1, Event.recordProcessed rec.id :: r.2)

/-- `date_to` filtering (batch_engine.py lines 144-147): filter the record
out iff a bound is configured, the record's `Modified_Time` parsed, and it
exceeds the bound. -/
def dateFiltered (dateTo : Option Nat) (rec : Record) : Bool :=
  match dateTo, rec.modifiedTime with
  | some d, some m => d < m
  | _, _ => false

/-- Result of `run_batch_sync`: final external world, final session row,
final in-memory stats (the method's return value) and the event trace. -/
structure RunResult where
  world : World
  session : Session
  stats : Stats
  events : List Event
deriving Repr, DecidableEq

/-- The main loop of `run_batch_sync` (batch_engine.py lines 130-217),
recursing over the not-yet-fetched records.  `idx` is `record_index`,
`batchRecords` the in-memory batch, `st` the world/stats/error-log state,
`sess` the persisted session row.  On exhaustion the trailing partial batch
is processed and a terminal status is set (lines 193-217). -/
def syncLoop (env : EngineEnv) (cfg : EngineCfg) :
    List Record → Nat → List Record → BState → Session → RunResult
  | [], idx, batchRecords, st, sess =>
    if batchRecords.isEmpty then
      let status := if st.stats.errors = 0 then "completed" else "completed_with_errors"
      { world := st.world, session := sess.setStatus status, stats := st.stats
        events := [Event.statusSet status] }
    else
      let r := processBatch env cfg batchRecords st
      let st1 : BState := { r.1 with stats :=
        { r.1.stats with batches_completed := r.1.stats.batches_completed + 1 } }
      let sess1 := sess.persistProgress idx st1.stats
      let ae : Session × List Event :=
        if st1.errorLog.isEmpty then (sess1, [])
        else (sess1.appendErrors st1.errorLog, [Event.appendErrors st1.errorLog.length])
      let status := if st1.stats.errors = 0 then "completed" else "completed_with_errors"
      { world := st1.world, session := ae.1.setStatus status, stats := st1.stats
        events := Event.batchStarted :: r.2 ++ Event.persist idx :: ae.2 ++ [Event.statusSet status] }
  | rec :: rest, idx, batchRecords, st, sess =>
    if idx < cfg.current_offset then
      let r := syncLoop env cfg rest (idx + 1) batchRecords st sess
      { r with events := Event.skippedResume :: r.events }
    else if dateFiltered cfg.date_to rec then
      let r := syncLoop env cfg rest idx batchRecords st sess
      { r with events := Event.filteredOut :: r.events }
    else
      let batch1 := batchRecords ++ [rec]
      let idx1 := idx + 1
      if cfg.batch_size ≤ batch1.length then
        let r := processBatch env cfg batch1 st
        let st1 : BState := { r.1 with stats :=
          { r.1.stats with batches_completed := r.1.stats.batches_completed + 1 } }
        let sess1 := sess.persistProgress idx1 st1.stats
        let ae : Session × List Event :=
          if st1.errorLog.isEmpty then (sess1, [])
          else (sess1.appendErrors st1.errorLog, [Event.appendErrors st1.errorLog.length])
        let headEvs := Event.enqueued rec.id :: Event.batchStarted :: r.2
          ++ Event.persist idx1 :: ae.2
        if env.cancelSignal st1.stats.batches_completed then
          { world := st1.world, session := ae.1.setStatus "cancelled", stats := st1.stats
            events := headEvs ++ [Event.statusSet "cancelled"] }
        else if env.pauseSignal st1.stats.batches_completed then
          { world := st1.world, session := ae.1.setStatus "paused", stats := st1.stats
            events := headEvs ++ [Event.statusSet "paused"] }
        else
          let sleepEvs := if 0 < cfg.delay_between_batches then [Event.sleepDelay] else []
          let st2 := { st1 with errorLog := [] }
          let r2 := syncLoop env cfg rest idx1 [] st2 ae.1
          { r2 with events := headEvs ++ sleepEvs ++ r2.events }
      else
        let r := syncLoop env cfg rest idx1 batch1 st sess
        { r with events := Event.enqueued rec.id :: r.events }

/-- `run_batch_sync(batch_id)` (batch_engine.py lines 90-232) for a found
session: load the configuration and prior counters from the session row,
set status `running`, and run the batching loop from `record_index = 0`
with a fresh in-memory error log.  `source` is the (lazily fetched,
rate-limited) record stream of `zoho.fetch_records`; `processor` the
engine's `ImageProcessor`. -/
def runBatchSync (env : EngineEnv) (processor : ImageProcessor)
    (sess : Session) (source : List Record) (w : World) : RunResult :=
  let cfg : EngineCfg :=
    { processor := processor
      batch_size := sess.batch_size
      delay_between_batches := sess.delay_between_batches
      date_to := sess.date_to
      dry_run := sess.dry_run
      current_offset := sess.current_offset }
  let st0 : BState := { world := w, stats := sess.loadStats, errorLog := [] }
  let r := syncLoop env cfg source 0 [] st0 (sess.setStatus "running")
  { r with events := Event.statusSet "running" :: r.events }

/-! ### Trace observations

Predicates over the event trace of a run, used to state the claims. -/

/-- Ids of the records handed to `_process_record`, in processing order. -/
def processedIds : List Event → List String
  | [] => []
  | Event.recordProcessed i :: t => i :: processedIds t
  | _ :: t => processedIds t

/-- How much an event advances the `record_index` cursor: records skipped
for resume and records accumulated into a batch count one; date-filtered
records count zero (batch_engine.py lines 139-150). -/
def cursorDelta : Event → Nat
  | Event.skippedResume => 1
  | Event.enqueued _ => 1
  | _ => 0

/-- Total cursor advance over a list of events. -/
def cursorCount (l : List Event) : Nat := (l.map cursorDelta).sum

/-- Number of source records enumerated (consumed from the stream):
skipped-for-resume, date-filtered, or accumulated into a batch. -/
def enumeratedCount : List Event → Nat
  | [] => 0
  | Event.skippedResume :: t => enumeratedCount t + 1
  | Event.filteredOut :: t => enumeratedCount t + 1
  | Event.enqueued _ :: t => enumeratedCount t + 1
  | _ :: t => enumeratedCount t

/-- Does a `persist` event at the current cursor value carry the right
offset? (Trivially true for other events.) -/
def persistedOffsetOk : Event → Nat → Prop
  | Event.persist o, n => o = n
  | _, _ => True

/-- Scanning the trace left to right while counting cursor advances, every
persisted `current_offset` equals the running count of records skipped for
resume plus records accumulated into batches. -/
def cursorMatches : Nat → List Event → Prop
  | _, [] => True
  | n, e :: t => persistedOffsetOk e n ∧ cursorMatches (n + cursorDelta e) t

/-- State of the persistence scan: `true` while the last events were a
progress persist optionally followed by error-log appends — the only points
at which the controller may honour pause/cancel. -/
def armedNext (armed : Bool) : Event → Bool
  | Event.persist _ => true
  | Event.appendErrors _ => armed
  | _ => false

/-- `HaltOk armed t`: in `t`, every `set_status` to `paused` or `cancelled`
happens while the scan is armed — i.e. immediately after a batch's progress
persist (possibly separated only by the error-log append) — and is the last
event of the trace (the controller returns at once: nothing further is
processed and no later write touches the persisted offset). -/
def HaltOk : Bool → List Event → Prop
  | _, [] => True
  | armed, e :: t =>
    (∀ s, e = Event.statusSet s → s = "paused" ∨ s = "cancelled" →
      armed = true ∧ t = []) ∧
    HaltOk (armedNext armed e) t

/-- No `set_status` call occurs in this event list. -/
def NoStatusEvents (l : List Event) : Prop := ∀ e ∈ l, ∀ s, e ≠ Event.statusSet s

/-- No storage upload and no `SyncedImage` upsert occurs in this event
list. -/
def NoWriteEvents (l : List Event) : Prop :=
  ∀ e ∈ l, (∀ p, e ≠ Event.upload p) ∧ (∀ r f, e ≠ Event.upsert r f)

/-- Benign environment for the given records: uploads succeed, no
record-level fault occurs, and every attachment has a valid URL and a
successful download. -/
def envAllOk (env : EngineEnv) (rs : List Record) : Prop :=
  (∀ p b, env.uploadFile p b = Except.ok ()) ∧
  ∀ r ∈ rs, env.recordFault r = none ∧
    ∀ a ∈ r.attachments, validUrl a.download_url = true ∧
      ∃ bs, env.download a.download_url = Except.ok bs

/-- Events emitted from inside `_process_batch`: record markers and the
storage/table writes. -/
def batchEvent (e : Event) : Prop :=
  (∃ i, e = Event.recordProcessed i) ∨ (∃ p, e = Event.upload p)
    ∨ (∃ r f, e = Event.upsert r f)

/-- Shape of an error-log entry written by the engine: always a record id;
attachment-level entries carry the field name and no timestamp,
record-level entries carry a timestamp and no field name. -/
def entryShapeOk (e : ErrEntry) : Prop :=
  e.record_id.isSome = true ∧
    ((e.field.isSome = true ∧ e.timestamp = none)
      ∨ (e.field = none ∧ e.timestamp = some ()))

/-- The (record id, field name) unique keys of every attachment of every
source record, in enumeration order. -/
def attachmentKeys (source : List Record) : List (String × String) :=
  source.flatMap (fun r => r.attachments.map (fun a => (r.id, a.field_name)))

/-- Keys of a list of `SyncedImage` rows. -/
def rowKeys (rows : List SyncedImage) : List (String × String) :=
  rows.map (fun r => (r.zoho_record_id, r.field_name))

/-! ### Concrete fixtures for witnesses and counterexamples -/

/-- A PIL oracle whose decoder always fails (undecodable payloads). -/
def pilNone : PILEnv :=
  { decode := fun _ => none, encodeWebP := fun i q => [i.width, i.height, q] }

/-- A PIL oracle decoding everything as a 6000×3000 RGB JPEG. -/
def pilBig : PILEnv :=
  { decode := fun _ => some { width := 6000, height := 3000, mode := "RGB", format := "JPEG" }
    encodeWebP := fun i q => [i.width, i.height, q] }

/-- A 50 KB PNG payload (PNG signature followed by filler bytes). -/
def png50k : List Nat :=
  [0x89, 0x50, 0x4e, 0x47, 0x0d, 0x0a, 0x1a, 0x0a] ++ List.replicate 51192 0

/-- A processor configured with a zero-byte threshold (`max_size_mb = 0`),
so that every payload is over the threshold. -/
def procTiny : ImageProcessor :=
  { max_dimension := 4000, quality := 85, max_size_bytes := 0 }

/-- An HTTP oracle whose first attempt fails with a transport error and
whose second attempt would succeed. -/
def env7 : HttpEnv :=
  { attempt := fun i => if i = 0 then ReqOutcome.netError "connection reset"
      else ReqOutcome.success "page" }

/-- An engine environment with no faults, no signals, successful uploads and
an offline downloader (only used where nothing is downloaded). -/
def envIdle : EngineEnv :=
  { download := fun _ => Except.error "offline"
    uploadFile := fun _ _ => Except.ok ()
    pil := pilNone
    formatYm := fun _ => "1970-01"
    recordFault := fun _ => none
    pauseSignal := fun _ => false
    cancelSignal := fun _ => false }

/-- `envIdle` with a working downloader. -/
def envOk : EngineEnv :=
  { envIdle with download := fun _ => Except.ok [0xff, 0xd8, 0xff, 0, 0, 0, 0, 0, 0, 0, 0, 0] }

/-- `envOk` but with the pause signal set when checked after the first
completed batch. -/
def envPauseAfter1 : EngineEnv :=
  { envOk with pauseSignal := fun n => n = 1 }

/-- The empty world. -/
def emptyWorld : World := { images := [], uploads := [] }

/-- Zeroed engine-loop state. -/
def zeroBState : BState :=
  { world := emptyWorld
    stats := { records_processed := 0, images_synced := 0, images_skipped := 0
               errors := 0, batches_completed := 0 }
    errorLog := [] }

/-- A freshly created session row (`create_batch_sync` defaults with the
given config). -/
def mkSession (batchSize : Nat) (dateTo : Option Nat) (dryRun : Bool) : Session :=
  { status := "pending", batch_size := batchSize, delay_between_batches := 0
    date_to := dateTo, dry_run := dryRun, current_offset := 0
    batches_completed := 0, records_processed := 0, images_synced := 0
    images_skipped := 0, errors := 0, error_log := [] }

/-- A record with no attachments and the given id / modification ordinal. -/
def plainRecord (id : String) (modified : Option Nat) : Record :=
  { id := id, addedTime := none, modifiedTime := modified, attachments := []
    tags := [], category := none, description := none }

/-- An attachment whose URL scheme is invalid (`ftp://`). -/
def badAtt : Attachment :=
  { field_name := "Photo", download_url := "ftp://host/p", filename := "p.png" }

/-- A well-formed attachment. -/
def goodAtt : Attachment :=
  { field_name := "Photo", download_url := "https://host/p", filename := "p.png" }

/-- A record with a single invalid-URL attachment. -/
def recBadUrl : Record :=
  { id := "U", addedTime := none, modifiedTime := none, attachments := [badAtt]
    tags := [], category := none, description := none }

/-- A record with a single valid attachment. -/
def recGood : Record :=
  { id := "R1", addedTime := none, modifiedTime := none, attachments := [goodAtt]
    tags := [], category := none, description := none }

/-- Engine config with `dry_run = false` and an otherwise plain setup. -/
def cfgReal : EngineCfg :=
  { processor := ImageProcessor.default, batch_size := 100
    delay_between_batches := 0, date_to := none, dry_run := false
    current_offset := 0 }

/-- Claim C1's counterexample run: `batch_size = 1`, `date_to = 5`, a source
whose first record has modification ordinal 10 (filtered) and whose second
has 1 (processed). -/
def run1 : RunResult :=
  runBatchSync envIdle ImageProcessor.default (mkSession 1 (some 5) true)
    [plainRecord "F" (some 10), plainRecord "B" (some 1)] emptyWorld

/-- Claim C2's counterexample, first run: `batch_size = 2`, `date_to = 5`,
source `[F (filtered), A, B]`, pause signalled after the first batch. -/
def run2a : RunResult :=
  runBatchSync envPauseAfter1 ImageProcessor.default (mkSession 2 (some 5) true)
    [plainRecord "F" (some 10), plainRecord "A" (some 1), plainRecord "B" (some 1)]
    emptyWorld

/-- Claim C2's counterexample, second run: resume the paused session. -/
def run2b : RunResult :=
  runBatchSync envIdle ImageProcessor.default run2a.session
    [plainRecord "F" (some 10), plainRecord "A" (some 1), plainRecord "B" (some 1)]
    emptyWorld

/-- Claim C2's witness session: batch size 2, no date bound, resuming from
`current_offset = 2`. -/
def sessResume : Session :=
  { mkSession 2 none true with current_offset := 2 }

/-- A five-record source with no attachments. -/
def srcFive : List Record :=
  [plainRecord "A" none, plainRecord "B" none, plainRecord "C" none,
   plainRecord "D" none, plainRecord "E" none]

/-- Claim C6's counterexample, dry run over a source with one invalid-URL
attachment. -/
def run6dry : RunResult :=
  runBatchSync envIdle ImageProcessor.default (mkSession 1 none true)
    [recBadUrl] emptyWorld

/-- Claim C6's counterexample, real run over the same source. -/
def run6real : RunResult :=
  runBatchSync envIdle ImageProcessor.default (mkSession 1 none false)
    [recBadUrl] emptyWorld

/-! ### Helper lemmas about the engine's event traces -/

lemma afterUpload_events (recId fieldName origFilename storage_path : String)
    (tags : List String) (category description : Option String)
    (pr : List Nat × String × Bool) (st : BState) (u : Except String Unit) :
    ∀ e ∈ (afterUpload recId fieldName origFilename storage_path tags category
        description pr st u).2, batchEvent e := by
  cases u <;> simp [afterUpload, batchEvent]

lemma attachmentUpload_events (env : EngineEnv) (cfg : EngineCfg) (recId : String)
    (tags : List String) (category description : Option String)
    (zohoCreated : Option Nat) (a : Attachment) (image_bytes : List Nat) (st : BState) :
    ∀ e ∈ (attachmentUpload env cfg recId tags category description zohoCreated
        a image_bytes st).2, batchEvent e := by
  unfold attachmentUpload
  exact afterUpload_events _ _ _ _ _ _ _ _ _ _

lemma processAttachment_events (env : EngineEnv) (cfg : EngineCfg) (recId : String)
    (tags : List String) (category description : Option String)
    (zohoCreated : Option Nat) (a : Attachment) (st : BState) :
    ∀ e ∈ (processAttachment env cfg recId tags category description zohoCreated a st).2,
      batchEvent e := by
  unfold processAttachment
  repeat' split
  any_goals simp [batchEvent]
  exact attachmentUpload_events env cfg recId tags category description zohoCreated a _ st

lemma processAtts_events (env : EngineEnv) (cfg : EngineCfg) (recId : String)
    (tags : List String) (category description : Option String)
    (zohoCreated : Option Nat) :
    ∀ (atts : List Attachment) (st : BState),
      ∀ e ∈ (processAtts env cfg recId tags category description zohoCreated atts st).2,
        batchEvent e := by
  intro atts
  induction atts with
  | nil => intro st e he; simp [processAtts] at he
  | cons a as_ ih =>
    intro st e he
    rw [processAtts] at he
    rcases List.mem_append.mp he with h | h
    · exact processAttachment_events env cfg recId tags category description zohoCreated a st e h
    · exact ih _ e h

lemma processBatch_events (env : EngineEnv) (cfg : EngineCfg) :
    ∀ (recs : List Record) (st : BState),
      ∀ e ∈ (processBatch env cfg recs st).2, batchEvent e := by
  intro recs
  induction recs with
  | nil => intro st e he; simp [processBatch] at he
  | cons rec recs ih =>
    intro st e he
    rw [processBatch] at he
    cases hf : env.recordFault rec with
    | some msg =>
      simp only [processRecord, hf] at he
      rcases List.mem_cons.mp he with h | h
      · exact Or.inl ⟨_, h⟩
      · exact ih _ e h
    | none =>
      simp only [processRecord, hf] at he
      rcases List.mem_cons.mp he with h | h
      · exact Or.inl ⟨_, h⟩
      · rcases List.mem_append.mp h with h2 | h2
        · exact processAtts_events env cfg rec.id rec.tags rec.category rec.description
            rec.addedTime rec.attachments _ e h2
        · exact ih _ e h2

lemma cursorCount_cons (e : Event) (l : List Event) :
    cursorCount (e :: l) = cursorDelta e + cursorCount l := by
  simp [cursorCount]

lemma cursorMatches_append {l t : List Event} :
    ∀ n, cursorMatches n (l ++ t) ↔
      cursorMatches n l ∧ cursorMatches (n + cursorCount l) t := by
  induction l with
  | nil => intro n; simp [cursorMatches, cursorCount]
  | cons e l ih =>
    intro n
    show (persistedOffsetOk e n ∧ cursorMatches (n + cursorDelta e) (l ++ t)) ↔
      (persistedOffsetOk e n ∧ cursorMatches (n + cursorDelta e) l) ∧ _
    rw [ih, cursorCount_cons, ← Nat.add_assoc, and_assoc]

lemma batchEvent_cursorDelta {e : Event} (h : batchEvent e) : cursorDelta e = 0 := by
  rcases h with ⟨i, rfl⟩ | ⟨p, rfl⟩ | ⟨r, f, rfl⟩ <;> rfl

lemma batchEvent_persistedOffsetOk {e : Event} (h : batchEvent e) (n : Nat) :
    persistedOffsetOk e n := by
  rcases h with ⟨i, rfl⟩ | ⟨p, rfl⟩ | ⟨r, f, rfl⟩ <;> trivial

lemma cursorMatches_of_batchEvents {l : List Event} (h : ∀ e ∈ l, batchEvent e) :
    ∀ n, cursorMatches n l := by
  induction l with
  | nil => intro n; trivial
  | cons e l ih =>
    intro n
    refine ⟨batchEvent_persistedOffsetOk (h e (List.mem_cons_self e l)) n, ?_⟩
    exact ih (fun x hx => h x (List.mem_cons_of_mem e hx)) _

lemma cursorCount_of_batchEvents {l : List Event} (h : ∀ e ∈ l, batchEvent e) :
    cursorCount l = 0 := by
  induction l with
  | nil => rfl
  | cons e l ih =>
    rw [cursorCount_cons, batchEvent_cursorDelta (h e (List.mem_cons_self e l)),
      ih (fun x hx => h x (List.mem_cons_of_mem e hx))]

lemma cursorMatches_aeEvs (c : Bool) (x y : Session) (m : Nat) (n : Nat)
    (t : List Event) (ht : cursorMatches n t) :
    cursorMatches n
      (((if c = true then (x, ([] : List Event)) else (y, [Event.appendErrors m]))
        : Session × List Event).2 ++ t) := by
  cases c
  · simpa [cursorMatches, persistedOffsetOk, cursorDelta] using ht
  · simpa using ht

lemma cursorMatches_sleepEvs (c : Prop) [Decidable c] (n : Nat) (t : List Event)
    (ht : cursorMatches n t) :
    cursorMatches n ((if c then [Event.sleepDelay] else []) ++ t) := by
  split
  · exact ⟨trivial, ht⟩
  · exact ht

/-- The trace segment laid down after a batch (batch events, the progress
persist, the optional error-log append) keeps the cursor invariant. -/
lemma cursorMatches_postBatch (n : Nat) (bevs : List Event)
    (hbevs : ∀ e ∈ bevs, batchEvent e) (c : Bool) (x y : Session) (m : Nat)
    (tail : List Event) (htail : cursorMatches n tail) :
    cursorMatches n
      ((bevs ++ Event.persist n ::
        ((if c = true then (x, ([] : List Event)) else (y, [Event.appendErrors m]))
          : Session × List Event).2) ++ tail) := by
  rw [List.append_assoc, List.cons_append, cursorMatches_append,
    cursorCount_of_batchEvents hbevs]
  exact ⟨cursorMatches_of_batchEvents hbevs n, rfl,
    cursorMatches_aeEvs c x y m n tail htail⟩

/-- Core of claim C1: the main loop persists, after every batch, exactly the
running count of records skipped for resume plus records accumulated into
batches (date-filtered records are not counted). -/
lemma syncLoop_cursor (env : EngineEnv) (cfg : EngineCfg) :
    ∀ (remaining : List Record) (idx : Nat) (batch : List Record)
      (st : BState) (sess : Session),
      cursorMatches idx (syncLoop env cfg remaining idx batch st sess).events := by
  intro remaining
  induction remaining with
  | nil =>
    intro idx batch st sess
    rw [syncLoop]
    dsimp only
    split
    · exact ⟨trivial, trivial⟩
    · exact ⟨trivial,
        cursorMatches_postBatch idx _ (processBatch_events env cfg batch st) _ _ _ _
          [Event.statusSet (if (processBatch env cfg batch st).1.stats.errors = 0
            then "completed" else "completed_with_errors")] ⟨trivial, trivial⟩⟩
  | cons rec rest ih =>
    intro idx batch st sess
    rw [syncLoop]
    dsimp only
    split
    · exact ⟨trivial, ih (idx + 1) batch st sess⟩
    · split
      · exact ⟨trivial, ih idx batch st sess⟩
      · split
        · split
          · exact ⟨trivial, trivial,
              cursorMatches_postBatch (idx + 1) _
                (processBatch_events env cfg (batch ++ [rec]) st) _ _ _ _
                [Event.statusSet "cancelled"] ⟨trivial, trivial⟩⟩
          · split
            · exact ⟨trivial, trivial,
                cursorMatches_postBatch (idx + 1) _
                  (processBatch_events env cfg (batch ++ [rec]) st) _ _ _ _
                  [Event.statusSet "paused"] ⟨trivial, trivial⟩⟩
            · refine ⟨trivial, trivial, ?_⟩
              simp only [List.append_eq]
              rw [List.append_assoc]
              exact cursorMatches_postBatch (idx + 1) _
                (processBatch_events env cfg (batch ++ [rec]) st) _ _ _ _ _
                (cursorMatches_sleepEvs _ _ _ (ih (idx + 1) [] _ _))
        · exact ⟨trivial, ih (idx + 1) (batch ++ [rec]) st sess⟩

/-! ### Claim C1: what `current_offset` counts -/

/-- C1 (amended): scanning a run's trace left to right, every persisted
`current_offset` equals the running count of records skipped for resume
plus records accumulated into batches — i.e. of all records enumerated so
far EXCEPT those excluded by the `date_to` filter, which do not advance
the cursor (`record_index` is not incremented on the filter's `continue`,
batch_engine.py lines 144-147). -/
theorem claim1_offset_counts_unfiltered_records (env : EngineEnv)
    (processor : ImageProcessor) (sess : Session) (source : List Record) (w : World) :
    cursorMatches 0 (runBatchSync env processor sess source w).events := by
  unfold runBatchSync
  exact ⟨trivial, syncLoop_cursor env _ source 0 [] _ _⟩

/-- C1 counterexample: in `run1` (batch size 1, `date_to = 5`, source
`[F (modified 10, filtered), B (modified 1)]`), two records have been
enumerated when the first completed batch persists `current_offset = 1`:
the persisted offset does not count the date-filtered record, contradicting
"equals the number of source records enumerated so far **including**
date-filtered ones". -/
theorem claim1_counterexample :
    run1.events.take 5
      = [Event.statusSet "running", Event.filteredOut, Event.enqueued "B",
         Event.batchStarted, Event.recordProcessed "B"]
    ∧ enumeratedCount (run1.events.take 5) = 2
    ∧ run1.events[5]? = some (Event.persist 1)
    ∧ run1.session.current_offset = 1
    ∧ (1 : Nat) ≠ 2 := by
  refine ⟨by decide, by decide, by decide, by decide, by decide⟩

/-! ### Claim C3: pause/cancel only at batch boundaries, as final action -/

lemma batchEvent_noStatus {e : Event} (h : batchEvent e) : ∀ s, e ≠ Event.statusSet s := by
  rcases h with ⟨i, rfl⟩ | ⟨p, rfl⟩ | ⟨r, f, rfl⟩ <;> intro s <;> exact fun hx => Event.noConfusion hx

lemma haltOk_cons_nostatus {e : Event} (h : ∀ s, e ≠ Event.statusSet s) {a : Bool}
    {t : List Event} (ht : HaltOk (armedNext a e) t) : HaltOk a (e :: t) :=
  ⟨fun s hs => absurd hs (h s), ht⟩

lemma haltOk_append_nostatus {l : List Event} (h : NoStatusEvents l)
    {t : List Event} (ht : ∀ a, HaltOk a t) : ∀ a, HaltOk a (l ++ t) := by
  induction l with
  | nil => exact ht
  | cons e l ih =>
    intro a
    exact haltOk_cons_nostatus (h e (List.mem_cons_self e l))
      (ih (fun x hx => h x (List.mem_cons_of_mem e hx)) _)

lemma haltOk_append_armed {l : List Event} (h : NoStatusEvents l) {t : List Event} :
    ∀ a : Bool, HaltOk (l.foldl armedNext a) t → HaltOk a (l ++ t) := by
  induction l with
  | nil => exact fun a ht => ht
  | cons e l ih =>
    intro a ht
    exact haltOk_cons_nostatus (h e (List.mem_cons_self e l))
      (ih (fun x hx => h x (List.mem_cons_of_mem e hx)) _ ht)

lemma haltOk_terminal (s : String) (hs : ¬(s = "paused" ∨ s = "cancelled")) (a : Bool) :
    HaltOk a [Event.statusSet s] := by
  refine ⟨?_, trivial⟩
  intro s' hs' hbad
  cases Event.statusSet.inj hs'
  exact absurd hbad hs

lemma haltOk_halt (s : String) : HaltOk true [Event.statusSet s] :=
  ⟨fun _ _ _ => ⟨rfl, rfl⟩, trivial⟩

lemma aeEvs_noStatus (c : Bool) (x y : Session) (m : Nat) :
    NoStatusEvents (((if c = true then (x, ([] : List Event))
      else (y, [Event.appendErrors m])) : Session × List Event).2) := by
  cases c <;> intro e he <;> simp at he
  subst he
  intro s
  exact fun hx => Event.noConfusion hx

lemma sleepEvs_noStatus (c : Prop) [Decidable c] :
    NoStatusEvents (if c then [Event.sleepDelay] else []) := by
  split <;> intro e he <;> simp at he
  subst he
  intro s
  exact fun hx => Event.noConfusion hx

lemma foldl_armedNext_ae (c : Bool) (x y : Session) (m : Nat) :
    (((if c = true then (x, ([] : List Event)) else (y, [Event.appendErrors m]))
      : Session × List Event).2).foldl armedNext true = true := by
  cases c <;> rfl

/-- The cancel/pause exit trace: batch events, the progress persist, the
optional error-log append, then the terminal `set_status` — the status write
is armed (immediately preceded by persisted progress) and final. -/
lemma haltOk_halt_trace (i : String) (bevs : List Event) (hbevs : NoStatusEvents bevs)
    (o : Nat) (c : Bool) (x y : Session) (m : Nat) (s : String) (a : Bool) :
    HaltOk a (((Event.enqueued i :: Event.batchStarted :: bevs) ++ Event.persist o ::
      ((if c = true then (x, ([] : List Event)) else (y, [Event.appendErrors m]))
        : Session × List Event).2) ++ [Event.statusSet s]) := by
  apply haltOk_append_armed
  · intro e he
    rcases List.mem_append.mp he with h | h
    · rcases List.mem_cons.mp h with h | h
      · subst h; exact fun s => fun hx => Event.noConfusion hx
      · rcases List.mem_cons.mp h with h | h
        · subst h; exact fun s => fun hx => Event.noConfusion hx
        · exact hbevs e h
    · rcases List.mem_cons.mp h with h | h
      · subst h; exact fun s => fun hx => Event.noConfusion hx
      · exact aeEvs_noStatus c x y m e h
  · rw [List.foldl_append]
    rw [show List.foldl armedNext (List.foldl armedNext a
        (Event.enqueued i :: Event.batchStarted :: bevs)) (Event.persist o ::
        ((if c = true then (x, ([] : List Event)) else (y, [Event.appendErrors m]))
          : Session × List Event).2)
      = (((if c = true then (x, ([] : List Event)) else (y, [Event.appendErrors m]))
          : Session × List Event).2).foldl armedNext true from rfl]
    rw [foldl_armedNext_ae]
    exact haltOk_halt s

/-- Core of claim C3: in every trace of the main loop, a `set_status` to
`paused` or `cancelled` occurs only immediately after a batch's progress
persist (possibly separated by the error-log append) and is the final
event. -/
lemma syncLoop_haltOk (env : EngineEnv) (cfg : EngineCfg) :
    ∀ (remaining : List Record) (idx : Nat) (batch : List Record)
      (st : BState) (sess : Session) (a : Bool),
      HaltOk a (syncLoop env cfg remaining idx batch st sess).events := by
  intro remaining
  induction remaining with
  | nil =>
    intro idx batch st sess a
    rw [syncLoop]
    dsimp only
    split
    · exact haltOk_terminal _ (by split <;> decide) a
    · apply haltOk_append_nostatus
      · intro e he
        rcases List.mem_append.mp he with h | h
        · rcases List.mem_cons.mp h with h | h
          · subst h; exact fun s => fun hx => Event.noConfusion hx
          · exact batchEvent_noStatus (processBatch_events env cfg batch st e h)
        · rcases List.mem_cons.mp h with h | h
          · subst h; exact fun s => fun hx => Event.noConfusion hx
          · exact aeEvs_noStatus _ _ _ _ e h
      · exact haltOk_terminal _ (by split <;> decide)
  | cons rec rest ih =>
    intro idx batch st sess a
    rw [syncLoop]
    dsimp only
    split
    · exact haltOk_cons_nostatus (fun s => fun hx => Event.noConfusion hx)
        (ih (idx + 1) batch st sess _)
    · split
      · exact haltOk_cons_nostatus (fun s => fun hx => Event.noConfusion hx)
          (ih idx batch st sess _)
      · split
        · split
          · exact haltOk_halt_trace _ _
              (fun e he => batchEvent_noStatus (processBatch_events env cfg (batch ++ [rec]) st e he))
              _ _ _ _ _ _ a
          · split
            · exact haltOk_halt_trace _ _
                (fun e he => batchEvent_noStatus (processBatch_events env cfg (batch ++ [rec]) st e he))
                _ _ _ _ _ _ a
            · apply haltOk_append_nostatus
              · intro e he
                rcases List.mem_append.mp he with h | h
                · rcases List.mem_append.mp h with h | h
                  · rcases List.mem_cons.mp h with h | h
                    · subst h; exact fun s => fun hx => Event.noConfusion hx
                    · rcases List.mem_cons.mp h with h | h
                      · subst h; exact fun s => fun hx => Event.noConfusion hx
                      · exact batchEvent_noStatus
                          (processBatch_events env cfg (batch ++ [rec]) st e h)
                  · rcases List.mem_cons.mp h with h | h
                    · subst h; exact fun s => fun hx => Event.noConfusion hx
                    · exact aeEvs_noStatus _ _ _ _ e h
                · exact sleepEvs_noStatus _ e h
              · exact fun b => ih (idx + 1) [] _ _ b
        · exact haltOk_cons_nostatus (fun s => fun hx => Event.noConfusion hx)
            (ih (idx + 1) (batch ++ [rec]) st sess _)

lemma haltOk_status_final : ∀ (t : List Event) (a : Bool) (k : Nat) (s : String),
    HaltOk a t → t[k]? = some (Event.statusSet s) → (s = "paused" ∨ s = "cancelled") →
    k + 1 = t.length := by
  intro t
  induction t with
  | nil => intro a k s _ hk _; simp at hk
  | cons e t ih =>
    intro a k s h hk hbad
    cases k with
    | zero =>
      simp at hk
      subst hk
      have := (h.1 s rfl hbad).2
      subst this
      rfl
    | succ k =>
      have := ih (armedNext a e) k s h.2 (by simpa using hk) hbad
      simp only [List.length_cons]
      omega

lemma haltOk_status_pred : ∀ (t : List Event) (a : Bool) (k : Nat) (s : String),
    HaltOk a t → t[k + 1]? = some (Event.statusSet s) → (s = "paused" ∨ s = "cancelled") →
    ∃ e, t[k]? = some e ∧ ((∃ o, e = Event.persist o) ∨ (∃ n, e = Event.appendErrors n)) := by
  intro t
  induction t with
  | nil => intro a k s _ hk _; simp at hk
  | cons e t ih =>
    intro a k s h hk hbad
    cases k with
    | zero =>
      simp only [List.getElem?_cons_succ] at hk
      cases t with
      | nil => simp at hk
      | cons e' t' =>
        simp only [List.getElem?_cons_zero, Option.some.injEq] at hk
        subst hk
        have harm := (h.2.1 s rfl hbad).1
        refine ⟨e, by simp, ?_⟩
        cases e <;> simp [armedNext] at harm ⊢
    | succ k =>
      have := ih (armedNext a e) k s h.2 (by simpa using hk) hbad
      simpa using this

/-- C3: in every run, a status change to `paused` or `cancelled` happens
only immediately after a batch's persisted progress (the preceding trace
event is the progress persist or the error-log append that directly follows
it), and it is the final action of the run: nothing is processed afterwards
and no later write touches the persisted offset (no rollback). -/
theorem claim3_halt_only_at_batch_boundaries (env : EngineEnv)
    (processor : ImageProcessor) (sess : Session) (source : List Record) (w : World) :
    HaltOk false (runBatchSync env processor sess source w).events
    ∧ (∀ k s,
        (runBatchSync env processor sess source w).events[k]? = some (Event.statusSet s) →
        (s = "paused" ∨ s = "cancelled") →
        k + 1 = (runBatchSync env processor sess source w).events.length
        ∧ 1 ≤ k
        ∧ ∃ e, (runBatchSync env processor sess source w).events[k - 1]? = some e
            ∧ ((∃ o, e = Event.persist o) ∨ (∃ n, e = Event.appendErrors n))) := by
  have h0 : HaltOk false (runBatchSync env processor sess source w).events := by
    unfold runBatchSync
    refine ⟨?_, ?_⟩
    · intro s hs hbad
      cases Event.statusSet.inj hs
      exact absurd hbad (by decide)
    · exact syncLoop_haltOk env _ source 0 [] _ _ _
  refine ⟨h0, ?_⟩
  intro k s hk hbad
  cases k with
  | zero =>
    have hh : (runBatchSync env processor sess source w).events[0]?
        = some (Event.statusSet "running") := by
      unfold runBatchSync
      dsimp only
      exact List.getElem?_cons_zero
    rw [hh] at hk
    cases Event.statusSet.inj (Option.some.inj hk)
    exact absurd hbad (by decide)
  | succ k =>
    refine ⟨haltOk_status_final _ false _ s h0 hk hbad, by omega, ?_⟩
    have := haltOk_status_pred _ false k s h0 hk hbad
    simpa using this

/-- C3 witness: the paused run `run2a` ends with `set_status "paused"` as
its last event, directly preceded by the progress persist. -/
theorem claim3_witness :
    run2a.events[8]? = some (Event.statusSet "paused")
    ∧ 8 + 1 = run2a.events.length
    ∧ ∃ e, run2a.events[7]? = some e
        ∧ ((∃ o, e = Event.persist o) ∨ (∃ n, e = Event.appendErrors n)) := by
  have h := (claim3_halt_only_at_batch_boundaries envPauseAfter1 ImageProcessor.default
    (mkSession 2 (some 5) true)
    [plainRecord "F" (some 10), plainRecord "A" (some 1), plainRecord "B" (some 1)]
    emptyWorld).2 8 "paused" (by decide) (Or.inl rfl)
  exact ⟨by decide, h.1, h.2.2⟩

/-! ### Claim C2: resume processes exactly the records from the offset -/

lemma processedIds_append : ∀ (l t : List Event),
    processedIds (l ++ t) = processedIds l ++ processedIds t := by
  intro l
  induction l with
  | nil => intro t; rfl
  | cons e l ih =>
    intro t
    cases e <;> simp [processedIds, ih]

lemma afterUpload_processedIds (recId fieldName origFilename storage_path : String)
    (tags : List String) (category description : Option String)
    (pr : List Nat × String × Bool) (st : BState) (u : Except String Unit) :
    processedIds (afterUpload recId fieldName origFilename storage_path tags category
      description pr st u).2 = [] := by
  cases u <;> rfl

lemma processAttachment_processedIds (env : EngineEnv) (cfg : EngineCfg) (recId : String)
    (tags : List String) (category description : Option String)
    (zohoCreated : Option Nat) (a : Attachment) (st : BState) :
    processedIds (processAttachment env cfg recId tags category description
      zohoCreated a st).2 = [] := by
  unfold processAttachment
  repeat' split
  any_goals rfl
  exact afterUpload_processedIds _ _ _ _ _ _ _ _ _ _

lemma processAtts_processedIds (env : EngineEnv) (cfg : EngineCfg) (recId : String)
    (tags : List String) (category description : Option String)
    (zohoCreated : Option Nat) :
    ∀ (atts : List Attachment) (st : BState),
      processedIds (processAtts env cfg recId tags category description
        zohoCreated atts st).2 = [] := by
  intro atts
  induction atts with
  | nil => intro st; rfl
  | cons a as_ ih =>
    intro st
    rw [processAtts]
    simp only [processedIds_append, processAttachment_processedIds, ih, List.append_nil]

lemma processBatch_processedIds (env : EngineEnv) (cfg : EngineCfg) :
    ∀ (recs : List Record) (st : BState),
      processedIds (processBatch env cfg recs st).2 = recs.map Record.id := by
  intro recs
  induction recs with
  | nil => intro st; rfl
  | cons rec recs ih =>
    intro st
    rw [processBatch]
    cases hf : env.recordFault rec with
    | some msg =>
      simp only [processRecord, hf]
      simp [processedIds, ih]
    | none =>
      simp only [processRecord, hf]
      simp [processedIds, processedIds_append, processAtts_processedIds, ih]

lemma processedIds_sleepEvs (c : Prop) [Decidable c] :
    processedIds (if c then [Event.sleepDelay] else []) = [] := by
  split <;> rfl

lemma processedIds_aeEvs (c : Prop) [Decidable c] (x y : Session) (m : Nat) :
    processedIds (((if c then (x, ([] : List Event)) else (y, [Event.appendErrors m]))
      : Session × List Event).2) = [] := by
  split <;> rfl

/-- Core of claim C2: with no `date_to` bound and no pause/cancel signal,
the loop hands to `_process_record` exactly the records whose running index
is at or above the stored offset, in order. -/
lemma syncLoop_processed (env : EngineEnv) (cfg : EngineCfg)
    (hdate : cfg.date_to = none)
    (hpause : ∀ n, env.pauseSignal n = false)
    (hcancel : ∀ n, env.cancelSignal n = false) :
    ∀ (remaining : List Record) (idx : Nat) (batch : List Record)
      (st : BState) (sess : Session),
      (cfg.current_offset ≤ idx ∨ batch = []) →
      processedIds (syncLoop env cfg remaining idx batch st sess).events
        = batch.map Record.id
          ++ (remaining.drop (cfg.current_offset - idx)).map Record.id := by
  intro remaining
  induction remaining with
  | nil =>
    intro idx batch st sess hpre
    rw [syncLoop]
    dsimp only
    split
    case isTrue hb =>
      rw [List.isEmpty_iff] at hb
      simp [processedIds, hb]
    case isFalse hb =>
      simp only [List.append_eq]
      rw [processedIds_append, processedIds_append]
      simp [processedIds, processBatch_processedIds, processedIds_aeEvs]
  | cons rec rest ih =>
    intro idx batch st sess hpre
    rw [syncLoop]
    dsimp only
    split
    case isTrue hlt =>
      have hb : batch = [] := by
        rcases hpre with h | h
        · omega
        · exact h
      subst hb
      have := ih (idx + 1) [] st sess (Or.inr rfl)
      simp only [processedIds] at this ⊢
      rw [this]
      rw [show cfg.current_offset - idx = (cfg.current_offset - (idx + 1)) + 1 from by omega,
        List.drop_succ_cons]
    case isFalse hge =>
      split
      case isTrue hfil =>
        rw [hdate] at hfil
        exact absurd hfil (by simp [dateFiltered])
      case isFalse hfil =>
        have hoff : cfg.current_offset ≤ idx := by omega
        split
        case isTrue hfull =>
          split
          case isTrue hc =>
            rw [hcancel] at hc
            exact absurd hc (by simp)
          case isFalse hc =>
            split
            case isTrue hp =>
              rw [hpause] at hp
              exact absurd hp (by simp)
            case isFalse hp =>
              have hloop := fun st' sess' => ih (idx + 1) [] st' sess' (Or.inl (by omega))
              simp only [List.append_eq]
              rw [processedIds_append, processedIds_append, processedIds_append]
              simp only [processedIds, processBatch_processedIds, processedIds_aeEvs,
                processedIds_sleepEvs, hloop]
              simp [Nat.sub_eq_zero_of_le hoff,
                Nat.sub_eq_zero_of_le (Nat.le_succ_of_le hoff)]
        case isFalse hfull =>
          have := ih (idx + 1) (batch ++ [rec]) st sess (Or.inl (by omega))
          simp only [processedIds] at this ⊢
          rw [this]
          simp [Nat.sub_eq_zero_of_le hoff,
            Nat.sub_eq_zero_of_le (Nat.le_succ_of_le hoff)]

/-- C2 (amended): when the session has no `date_to` bound and no pause or
cancel is signalled during the resumed run, `run_batch_sync` processes
exactly the records whose running index is at or above the persisted
`current_offset` — none below it is reprocessed, none at or above it is
skipped.  (With a `date_to` bound the property fails — see the
counterexample — because filtered records do not advance the cursor.) -/
theorem claim2_resume_exact (env : EngineEnv) (processor : ImageProcessor)
    (sess : Session) (source : List Record) (w : World)
    (hdate : sess.date_to = none)
    (hpause : ∀ n, env.pauseSignal n = false)
    (hcancel : ∀ n, env.cancelSignal n = false) :
    processedIds (runBatchSync env processor sess source w).events
      = (source.drop sess.current_offset).map Record.id := by
  unfold runBatchSync
  have h := syncLoop_processed env
    { processor := processor, batch_size := sess.batch_size
      delay_between_batches := sess.delay_between_batches, date_to := sess.date_to
      dry_run := sess.dry_run, current_offset := sess.current_offset }
    hdate hpause hcancel source 0 []
    { world := w, stats := sess.loadStats, errorLog := [] }
    (sess.setStatus "running") (Or.inr rfl)
  simpa [processedIds] using h

/-- C2 counterexample: with `date_to = 5` over source `[F(10), A, B]` and
batch size 2, the first run pauses with persisted `current_offset = 2`
having processed `A` and `B`; the resumed run processes `B` again — a
record already processed is reprocessed, because the date-filtered `F`
advanced no index in the first run but occupies a position in the resumed
run's skip count. -/
theorem claim2_counterexample :
    run2a.session.status = "paused" ∧ run2a.session.current_offset = 2
    ∧ processedIds run2a.events = ["A", "B"]
    ∧ processedIds run2b.events = ["B"]
    ∧ "B" ∈ processedIds run2a.events ∧ "B" ∈ processedIds run2b.events := by
  exact ⟨by decide, by decide, by decide, by decide, by decide, by decide⟩

/-- C2 witness: resuming a five-record source from offset 2 with batch size
2 processes exactly `C`, `D`, `E`. -/
theorem claim2_witness :
    sessResume.date_to = none
    ∧ processedIds (runBatchSync envIdle ImageProcessor.default sessResume
        srcFive emptyWorld).events = ["C", "D", "E"] := by
  have h := claim2_resume_exact envIdle ImageProcessor.default sessResume srcFive
    emptyWorld rfl (fun _ => rfl) (fun _ => rfl)
  exact ⟨rfl, h.trans (by decide)⟩

/-! ### Claim C5: per-attachment and per-record error containment -/

lemma afterUpload_accounting (recId fieldName origFilename storage_path : String)
    (tags : List String) (category description : Option String)
    (pr : List Nat × String × Bool) (st : BState) (u : Except String Unit) :
    ∃ new,
      (afterUpload recId fieldName origFilename storage_path tags category
        description pr st u).1.errorLog = st.errorLog ++ new
      ∧ (afterUpload recId fieldName origFilename storage_path tags category
          description pr st u).1.stats.errors = st.stats.errors + new.length
      ∧ (∀ e ∈ new, e.record_id = some recId ∧ e.field = some fieldName
          ∧ e.timestamp = none)
      ∧ (afterUpload recId fieldName origFilename storage_path tags category
          description pr st u).1.stats.records_processed = st.stats.records_processed
      ∧ (afterUpload recId fieldName origFilename storage_path tags category
          description pr st u).1.stats.batches_completed = st.stats.batches_completed
      ∧ (afterUpload recId fieldName origFilename storage_path tags category
            description pr st u).1.stats.images_skipped
          + (afterUpload recId fieldName origFilename storage_path tags category
            description pr st u).1.stats.images_synced
          + (afterUpload recId fieldName origFilename storage_path tags category
            description pr st u).1.stats.errors
        = st.stats.images_skipped + st.stats.images_synced + st.stats.errors + 1 := by
  cases u with
  | error e =>
    refine ⟨[⟨some recId, some fieldName, e, none⟩], rfl, rfl, ?_, rfl, rfl, ?_⟩
    · intro x hx
      simp at hx
      subst hx
      exact ⟨rfl, rfl, rfl⟩
    · simp only [afterUpload]
      omega
  | ok _ =>
    refine ⟨[], by simp [afterUpload], by simp [afterUpload], by simp, rfl, rfl, ?_⟩
    simp only [afterUpload]
    omega

lemma processAttachment_accounting (env : EngineEnv) (cfg : EngineCfg) (recId : String)
    (tags : List String) (category description : Option String)
    (zohoCreated : Option Nat) (a : Attachment) (st : BState) :
    ∃ new,
      (processAttachment env cfg recId tags category description zohoCreated
        a st).1.errorLog = st.errorLog ++ new
      ∧ (processAttachment env cfg recId tags category description zohoCreated
          a st).1.stats.errors = st.stats.errors + new.length
      ∧ (∀ e ∈ new, e.record_id = some recId ∧ e.field = some a.field_name
          ∧ e.timestamp = none)
      ∧ (processAttachment env cfg recId tags category description zohoCreated
          a st).1.stats.records_processed = st.stats.records_processed
      ∧ (processAttachment env cfg recId tags category description zohoCreated
          a st).1.stats.batches_completed = st.stats.batches_completed
      ∧ (processAttachment env cfg recId tags category description zohoCreated
            a st).1.stats.images_skipped
          + (processAttachment env cfg recId tags category description zohoCreated
            a st).1.stats.images_synced
          + (processAttachment env cfg recId tags category description zohoCreated
            a st).1.stats.errors
        = st.stats.images_skipped + st.stats.images_synced + st.stats.errors + 1 := by
  unfold processAttachment
  split
  · exact ⟨[], by simp, by simp, by simp, rfl, rfl, by simp; omega⟩
  · split
    · exact ⟨[], by simp, by simp, by simp, rfl, rfl, by simp; omega⟩
    · split
      · refine ⟨[⟨some recId, some a.field_name,
          "Invalid URL: " ++ a.download_url, none⟩], rfl, rfl, ?_, rfl, rfl,
          by simp; omega⟩
        intro x hx
        simp at hx
        subst hx
        exact ⟨rfl, rfl, rfl⟩
      · split
        · next e heq =>
          refine ⟨[⟨some recId, some a.field_name, e, none⟩], rfl, rfl, ?_, rfl, rfl,
            by simp; omega⟩
          intro x hx
          simp at hx
          subst hx
          exact ⟨rfl, rfl, rfl⟩
        · exact afterUpload_accounting _ _ _ _ _ _ _ _ _ _

lemma processAtts_accounting (env : EngineEnv) (cfg : EngineCfg) (recId : String)
    (tags : List String) (category description : Option String)
    (zohoCreated : Option Nat) :
    ∀ (atts : List Attachment) (st : BState),
    ∃ new,
      (processAtts env cfg recId tags category description zohoCreated
        atts st).1.errorLog = st.errorLog ++ new
      ∧ (processAtts env cfg recId tags category description zohoCreated
          atts st).1.stats.errors = st.stats.errors + new.length
      ∧ (∀ e ∈ new, e.record_id = some recId ∧ e.field.isSome = true
          ∧ e.timestamp = none)
      ∧ (processAtts env cfg recId tags category description zohoCreated
          atts st).1.stats.records_processed = st.stats.records_processed
      ∧ (processAtts env cfg recId tags category description zohoCreated
          atts st).1.stats.batches_completed = st.stats.batches_completed
      ∧ (processAtts env cfg recId tags category description zohoCreated
            atts st).1.stats.images_skipped
          + (processAtts env cfg recId tags category description zohoCreated
            atts st).1.stats.images_synced
          + (processAtts env cfg recId tags category description zohoCreated
            atts st).1.stats.errors
        = st.stats.images_skipped + st.stats.images_synced + st.stats.errors
          + atts.length := by
  intro atts
  induction atts with
  | nil => intro st; exact ⟨[], by simp [processAtts], by simp [processAtts],
      by simp, rfl, rfl, by simp [processAtts]⟩
  | cons a as_ ih =>
    intro st
    rw [processAtts]
    obtain ⟨n1, hl1, he1, hs1, hr1, hb1, hsum1⟩ :=
      processAttachment_accounting env cfg recId tags category description zohoCreated a st
    obtain ⟨n2, hl2, he2, hs2, hr2, hb2, hsum2⟩ := ih
      (processAttachment env cfg recId tags category description zohoCreated a st).1
    refine ⟨n1 ++ n2, ?_, ?_, ?_, ?_, ?_, ?_⟩
    · rw [hl2, hl1, List.append_assoc]
    · rw [he2, he1]
      simp [Nat.add_assoc]
    · intro x hx
      rcases List.mem_append.mp hx with h | h
      · obtain ⟨h1, h2, h3⟩ := hs1 x h
        exact ⟨h1, by simp [h2], h3⟩
      · exact hs2 x h
    · rw [hr2, hr1]
    · rw [hb2, hb1]
    · rw [hsum2, List.length_cons]
      omega

lemma processBatch_accounting (env : EngineEnv) (cfg : EngineCfg) :
    ∀ (recs : List Record) (st : BState),
    ∃ new,
      (processBatch env cfg recs st).1.errorLog = st.errorLog ++ new
      ∧ (processBatch env cfg recs st).1.stats.errors = st.stats.errors + new.length
      ∧ (∀ e ∈ new, entryShapeOk e)
      ∧ (processBatch env cfg recs st).1.stats.records_processed
          = st.stats.records_processed + recs.length
      ∧ (processBatch env cfg recs st).1.stats.batches_completed
          = st.stats.batches_completed := by
  intro recs
  induction recs with
  | nil =>
    intro st
    exact ⟨[], by simp [processBatch], by simp [processBatch], by simp,
      by simp [processBatch], rfl⟩
  | cons rec recs ih =>
    intro st
    rw [processBatch]
    cases hf : env.recordFault rec with
    | some msg =>
      simp only [processRecord, hf]
      obtain ⟨n2, hl2, he2, hs2, hr2, hb2⟩ := ih
        { world := st.world
          stats := { st.stats with
            records_processed := st.stats.records_processed + 1
            errors := st.stats.errors + 1 }
          errorLog := st.errorLog ++ [⟨some rec.id, none, msg, some ()⟩] }
      refine ⟨⟨some rec.id, none, msg, some ()⟩ :: n2, ?_, ?_, ?_, ?_, ?_⟩
      · rw [hl2]
        simp
      · rw [he2]
        simp only [List.length_cons]
        omega
      · intro x hx
        rcases List.mem_cons.mp hx with h | h
        · subst h
          exact ⟨rfl, Or.inr ⟨rfl, rfl⟩⟩
        · exact hs2 x h
      · rw [hr2]
        simp only [List.length_cons]
        omega
      · rw [hb2]
    | none =>
      simp only [processRecord, hf]
      obtain ⟨n1, hl1, he1, hs1, hr1, hb1, _⟩ :=
        processAtts_accounting env cfg rec.id rec.tags rec.category rec.description
          rec.addedTime rec.attachments
          { st with stats := { st.stats with
              records_processed := st.stats.records_processed + 1 } }
      obtain ⟨n2, hl2, he2, hs2, hr2, hb2⟩ := ih
        (processAtts env cfg rec.id rec.tags rec.category rec.description
          rec.addedTime rec.attachments
          { st with stats := { st.stats with
              records_processed := st.stats.records_processed + 1 } }).1
      refine ⟨n1 ++ n2, ?_, ?_, ?_, ?_, ?_⟩
      · rw [hl2, hl1]
        simp
      · rw [he2, he1]
        simp only [List.length_append]
        omega
      · intro x hx
        rcases List.mem_append.mp hx with h | h
        · obtain ⟨h1, h2, h3⟩ := hs1 x h
          exact ⟨by simp [h1], Or.inl ⟨h2, h3⟩⟩
        · exact hs2 x h
      · rw [hr2, hr1]
        simp only [List.length_cons]
        omega
      · rw [hb2, hb1]

/-- C5 (amended): every record-level and attachment-level exception is
caught at its own level and never aborts the batch: `records_processed`
grows by the full batch length and every record reaches `_process_record`;
each failure adds exactly one to `errors` and appends one error-log entry,
which always carries the record id and the message — attachment-level
entries carry the field name but NO timestamp (batch_engine.py lines
312-316, 362-366 build `{record_id, field, error}` without a timestamp
key), record-level entries carry a timestamp but no field; and every
attachment of a record is attempted regardless of earlier failures (each
contributes exactly one of skipped/synced/errors). -/
theorem claim5_errors_contained (env : EngineEnv) (cfg : EngineCfg)
    (recs : List Record) (st : BState) :
    (processBatch env cfg recs st).1.stats.records_processed
      = st.stats.records_processed + recs.length
    ∧ processedIds (processBatch env cfg recs st).2 = recs.map Record.id
    ∧ (∃ new, (processBatch env cfg recs st).1.errorLog = st.errorLog ++ new
        ∧ (processBatch env cfg recs st).1.stats.errors = st.stats.errors + new.length
        ∧ ∀ e ∈ new, entryShapeOk e)
    ∧ (∀ (recId : String) (tags : List String) (category description : Option String)
        (zohoCreated : Option Nat) (atts : List Attachment) (st2 : BState),
        (processAtts env cfg recId tags category description zohoCreated
            atts st2).1.stats.images_skipped
          + (processAtts env cfg recId tags category description zohoCreated
            atts st2).1.stats.images_synced
          + (processAtts env cfg recId tags category description zohoCreated
            atts st2).1.stats.errors
        = st2.stats.images_skipped + st2.stats.images_synced + st2.stats.errors
          + atts.length) := by
  obtain ⟨new, h1, h2, h3, h4, _⟩ := processBatch_accounting env cfg recs st
  refine ⟨h4, processBatch_processedIds env cfg recs st, ⟨new, h1, h2, h3⟩, ?_⟩
  intro recId tags category description zohoCreated atts st2
  obtain ⟨n, _, _, _, _, _, hsum⟩ := processAtts_accounting env cfg recId tags
    category description zohoCreated atts st2
  exact hsum

/-- C5 counterexample: the entry appended for an attachment failure (here an
invalid URL scheme) has no timestamp, contradicting "appends an error-log
entry carrying record id, field name, message, **and timestamp**". -/
theorem claim5_counterexample :
    (processAttachment envIdle cfgReal "R1" [] none none none badAtt zeroBState).1.errorLog
      = [⟨some "R1", some "Photo", "Invalid URL: ftp://host/p", none⟩]
    ∧ ∀ e ∈ (processAttachment envIdle cfgReal "R1" [] none none none badAtt
        zeroBState).1.errorLog, e.timestamp = none := by
  exact ⟨by decide, by decide⟩

/-! ### Claim C4: idempotence of the attachment pipeline -/

lemma imageExists_false_of_countKey_zero (w : World) (r f : String)
    (h : countKey w r f = 0) : imageExists w r f = false := by
  unfold countKey at h
  rw [List.length_eq_zero] at h
  unfold imageExists
  rw [List.any_eq_false]
  intro x hx
  have := List.filter_eq_nil_iff.mp h x hx
  simpa using this

lemma upsertImage_fresh (w : World) (row : SyncedImage)
    (h : imageExists w row.zoho_record_id row.field_name = false) :
    upsertImage w row = { w with images := w.images ++ [row] } := by
  unfold upsertImage
  rw [h]
  simp

lemma attachmentUpload_success (env : EngineEnv) (cfg : EngineCfg) (recId : String)
    (tags : List String) (category description : Option String)
    (zohoCreated : Option Nat) (a : Attachment) (bytes : List Nat) (st : BState)
    (hup : ∀ p b, env.uploadFile p b = Except.ok ())
    (hex : imageExists st.world recId a.field_name = false) :
    ∃ (row : SyncedImage) (u : List (String × List Nat)) (evs : List Event),
      attachmentUpload env cfg recId tags category description zohoCreated a bytes st
        = ({ world := { images := st.world.images ++ [row], uploads := u }
             stats := { st.stats with images_synced := st.stats.images_synced + 1 }
             errorLog := st.errorLog }, evs)
      ∧ row.zoho_record_id = recId ∧ row.field_name = a.field_name := by
  unfold attachmentUpload
  simp only [hup]
  simp only [afterUpload]
  rw [upsertImage_fresh _ _ hex]
  exact ⟨_, _, _, rfl, rfl, rfl⟩

/-- C4: running the attachment pipeline (`_process_record`) twice for the
same (record id, field name) pair — with a working downloader and bucket —
results in exactly one `SyncedImage` row: the first run inserts the row and
counts `images_synced`; the second run finds the existing row, increments
`images_skipped` (not `images_synced`), performs no storage or table write
(no events), and leaves the row set unchanged. -/
theorem claim4_pipeline_idempotent (env : EngineEnv) (cfg : EngineCfg)
    (rec : Record) (a : Attachment) (st : BState)
    (hatts : rec.attachments = [a])
    (hdry : cfg.dry_run = false)
    (hfault : env.recordFault rec = none)
    (hvalid : validUrl a.download_url = true)
    (hdl : ∃ bs, env.download a.download_url = Except.ok bs)
    (hup : ∀ p b, env.uploadFile p b = Except.ok ())
    (hfresh : countKey st.world rec.id a.field_name = 0) :
    ∃ (st1 : BState) (evs1 : List Event),
      processRecord env cfg rec st = Except.ok (st1, evs1)
      ∧ countKey st1.world rec.id a.field_name = 1
      ∧ st1.stats.images_synced = st.stats.images_synced + 1
      ∧ st1.stats.images_skipped = st.stats.images_skipped
      ∧ st1.stats.errors = st.stats.errors
      ∧ processRecord env cfg rec st1
          = Except.ok ({ st1 with stats :=
              { st1.stats with images_skipped := st1.stats.images_skipped + 1 } },
            ([] : List Event)) := by
  obtain ⟨bs, hbs⟩ := hdl
  have hex : imageExists st.world rec.id a.field_name = false :=
    imageExists_false_of_countKey_zero _ _ _ hfresh
  obtain ⟨row, u, evs, heq, hrow1, hrow2⟩ := attachmentUpload_success env cfg rec.id
    rec.tags rec.category rec.description rec.addedTime a bs st hup hex
  have hAtt : processAttachment env cfg rec.id rec.tags rec.category rec.description
      rec.addedTime a st
      = attachmentUpload env cfg rec.id rec.tags rec.category rec.description
          rec.addedTime a bs st := by
    unfold processAttachment
    simp [hex, hdry, hvalid, hbs]
  refine ⟨{ world := { images := st.world.images ++ [row], uploads := u }
            stats := { st.stats with images_synced := st.stats.images_synced + 1 }
            errorLog := st.errorLog }, evs, ?_, ?_, rfl, rfl, rfl, ?_⟩
  · unfold processRecord
    rw [hfault, hatts]
    rw [processAtts, hAtt, heq]
    rw [processAtts]
    simp
  · unfold countKey
    simp only [List.filter_append]
    rw [List.length_append]
    have h0 : countKey st.world rec.id a.field_name = 0 := hfresh
    unfold countKey at h0
    rw [h0]
    simp [hrow1, hrow2]
  · have hex2 : imageExists
        ({ images := st.world.images ++ [row], uploads := u } : World)
        rec.id a.field_name = true := by
      unfold imageExists
      rw [List.any_eq_true]
      exact ⟨row, by simp, by simp [hrow1, hrow2]⟩
    unfold processRecord
    rw [hfault, hatts]
    simp [processAtts, processAttachment, hex2]

/-- C4 witness: a concrete record with one valid attachment over an empty
image table. -/
theorem claim4_witness :
    ∃ (st1 : BState) (evs1 : List Event),
      processRecord envOk cfgReal recGood zeroBState = Except.ok (st1, evs1)
      ∧ countKey st1.world recGood.id goodAtt.field_name = 1
      ∧ st1.stats.images_synced = zeroBState.stats.images_synced + 1
      ∧ st1.stats.images_skipped = zeroBState.stats.images_skipped
      ∧ st1.stats.errors = zeroBState.stats.errors
      ∧ processRecord envOk cfgReal recGood st1
          = Except.ok ({ st1 with stats :=
              { st1.stats with images_skipped := st1.stats.images_skipped + 1 } },
            ([] : List Event)) := by
  exact claim4_pipeline_idempotent envOk cfgReal recGood goodAtt zeroBState rfl rfl rfl
    (by decide) ⟨[0xff, 0xd8, 0xff, 0, 0, 0, 0, 0, 0, 0, 0, 0], rfl⟩
    (fun _ _ => rfl) (by decide)

/-! ### Claim C6: dry-run writes nothing; synced counts versus a real run -/

lemma noWriteEvents_nil : NoWriteEvents [] := by
  intro x hx
  simp at hx

lemma noWriteEvents_cons {e : Event} {t : List Event}
    (h1 : (∀ p, e ≠ Event.upload p) ∧ (∀ r f, e ≠ Event.upsert r f))
    (h2 : NoWriteEvents t) : NoWriteEvents (e :: t) := by
  intro x hx
  rcases List.mem_cons.mp hx with h | h
  · subst h; exact h1
  · exact h2 x h

lemma noWriteEvents_append {l t : List Event} (h1 : NoWriteEvents l)
    (h2 : NoWriteEvents t) : NoWriteEvents (l ++ t) := by
  intro x hx
  rcases List.mem_append.mp hx with h | h
  · exact h1 x h
  · exact h2 x h

lemma noWriteEvents_aeEvs (c : Bool) (x y : Session) (m : Nat) :
    NoWriteEvents (((if c = true then (x, ([] : List Event))
      else (y, [Event.appendErrors m])) : Session × List Event).2) := by
  cases c
  · exact noWriteEvents_cons
      ⟨fun _ h => Event.noConfusion h, fun _ _ h => Event.noConfusion h⟩ noWriteEvents_nil
  · exact noWriteEvents_nil

lemma noWriteEvents_sleepEvs (c : Prop) [Decidable c] :
    NoWriteEvents (if c then [Event.sleepDelay] else []) := by
  split
  · exact noWriteEvents_cons
      ⟨fun _ h => Event.noConfusion h, fun _ _ h => Event.noConfusion h⟩ noWriteEvents_nil
  · exact noWriteEvents_nil

lemma processAttachment_dry (env : EngineEnv) (cfg : EngineCfg) (recId : String)
    (tags : List String) (category description : Option String)
    (zohoCreated : Option Nat) (a : Attachment) (st : BState)
    (hdry : cfg.dry_run = true) :
    (processAttachment env cfg recId tags category description zohoCreated a st).2 = []
    ∧ (processAttachment env cfg recId tags category description zohoCreated
        a st).1.world = st.world := by
  unfold processAttachment
  split
  · exact ⟨rfl, rfl⟩
  · simp [hdry]

lemma processAtts_dry (env : EngineEnv) (cfg : EngineCfg) (recId : String)
    (tags : List String) (category description : Option String)
    (zohoCreated : Option Nat) (hdry : cfg.dry_run = true) :
    ∀ (atts : List Attachment) (st : BState),
      (processAtts env cfg recId tags category description zohoCreated atts st).2 = []
      ∧ (processAtts env cfg recId tags category description zohoCreated
          atts st).1.world = st.world := by
  intro atts
  induction atts with
  | nil => intro st; exact ⟨rfl, rfl⟩
  | cons a as_ ih =>
    intro st
    rw [processAtts]
    obtain ⟨h1, h2⟩ := processAttachment_dry env cfg recId tags category description
      zohoCreated a st hdry
    obtain ⟨h3, h4⟩ := ih
      (processAttachment env cfg recId tags category description zohoCreated a st).1
    exact ⟨by simp [h1, h3], by simp [h4, h2]⟩

lemma processBatch_dry (env : EngineEnv) (cfg : EngineCfg) (hdry : cfg.dry_run = true) :
    ∀ (recs : List Record) (st : BState),
      NoWriteEvents (processBatch env cfg recs st).2
      ∧ (processBatch env cfg recs st).1.world = st.world := by
  intro recs
  induction recs with
  | nil => intro st; exact ⟨noWriteEvents_nil, rfl⟩
  | cons rec recs ih =>
    intro st
    rw [processBatch]
    cases hf : env.recordFault rec with
    | some msg =>
      simp only [processRecord, hf]
      obtain ⟨h3, h4⟩ := ih _
      exact ⟨noWriteEvents_cons
        ⟨fun _ h => Event.noConfusion h, fun _ _ h => Event.noConfusion h⟩ h3, h4⟩
    | none =>
      simp only [processRecord, hf]
      obtain ⟨h1, h2⟩ := processAtts_dry env cfg rec.id rec.tags rec.category
        rec.description rec.addedTime hdry rec.attachments
        { st with stats := { st.stats with
            records_processed := st.stats.records_processed + 1 } }
      obtain ⟨h3, h4⟩ := ih _
      refine ⟨?_, by rw [h4, h2]⟩
      refine noWriteEvents_cons
        ⟨fun _ h => Event.noConfusion h, fun _ _ h => Event.noConfusion h⟩ ?_
      rw [h1]
      exact h3

lemma syncLoop_dry (env : EngineEnv) (cfg : EngineCfg) (hdry : cfg.dry_run = true) :
    ∀ (remaining : List Record) (idx : Nat) (batch : List Record)
      (st : BState) (sess : Session),
      NoWriteEvents (syncLoop env cfg remaining idx batch st sess).events
      ∧ (syncLoop env cfg remaining idx batch st sess).world = st.world := by
  intro remaining
  induction remaining with
  | nil =>
    intro idx batch st sess
    rw [syncLoop]
    dsimp only
    split
    · refine ⟨noWriteEvents_cons
        ⟨fun _ h => Event.noConfusion h, fun _ _ h => Event.noConfusion h⟩
        noWriteEvents_nil, rfl⟩
    · obtain ⟨h1, h2⟩ := processBatch_dry env cfg hdry batch st
      refine ⟨?_, h2⟩
      refine noWriteEvents_append (noWriteEvents_append ?_ ?_) ?_
      · exact noWriteEvents_cons
          ⟨fun _ h => Event.noConfusion h, fun _ _ h => Event.noConfusion h⟩ h1
      · exact noWriteEvents_cons
          ⟨fun _ h => Event.noConfusion h, fun _ _ h => Event.noConfusion h⟩
          (noWriteEvents_aeEvs _ _ _ _)
      · exact noWriteEvents_cons
          ⟨fun _ h => Event.noConfusion h, fun _ _ h => Event.noConfusion h⟩
          noWriteEvents_nil
  | cons rec rest ih =>
    intro idx batch st sess
    rw [syncLoop]
    dsimp only
    split
    · obtain ⟨h1, h2⟩ := ih (idx + 1) batch st sess
      exact ⟨noWriteEvents_cons
        ⟨fun _ h => Event.noConfusion h, fun _ _ h => Event.noConfusion h⟩ h1, h2⟩
    · split
      · obtain ⟨h1, h2⟩ := ih idx batch st sess
        exact ⟨noWriteEvents_cons
          ⟨fun _ h => Event.noConfusion h, fun _ _ h => Event.noConfusion h⟩ h1, h2⟩
      · split
        · obtain ⟨hb1, hb2⟩ := processBatch_dry env cfg hdry (batch ++ [rec]) st
          split
          · refine ⟨noWriteEvents_append (noWriteEvents_append ?_ ?_) ?_, hb2⟩
            · exact noWriteEvents_cons
                ⟨fun _ h => Event.noConfusion h, fun _ _ h => Event.noConfusion h⟩
                (noWriteEvents_cons
                  ⟨fun _ h => Event.noConfusion h, fun _ _ h => Event.noConfusion h⟩ hb1)
            · exact noWriteEvents_cons
                ⟨fun _ h => Event.noConfusion h, fun _ _ h => Event.noConfusion h⟩
                (noWriteEvents_aeEvs _ _ _ _)
            · exact noWriteEvents_cons
                ⟨fun _ h => Event.noConfusion h, fun _ _ h => Event.noConfusion h⟩
                noWriteEvents_nil
          · split
            · refine ⟨noWriteEvents_append (noWriteEvents_append ?_ ?_) ?_, hb2⟩
              · exact noWriteEvents_cons
                  ⟨fun _ h => Event.noConfusion h, fun _ _ h => Event.noConfusion h⟩
                  (noWriteEvents_cons
                    ⟨fun _ h => Event.noConfusion h, fun _ _ h => Event.noConfusion h⟩ hb1)
              · exact noWriteEvents_cons
                  ⟨fun _ h => Event.noConfusion h, fun _ _ h => Event.noConfusion h⟩
                  (noWriteEvents_aeEvs _ _ _ _)
              · exact noWriteEvents_cons
                  ⟨fun _ h => Event.noConfusion h, fun _ _ h => Event.noConfusion h⟩
                  noWriteEvents_nil
            · obtain ⟨h1, h2⟩ := ih (idx + 1) []
                { (processBatch env cfg (batch ++ [rec]) st).1 with
                  stats := { (processBatch env cfg (batch ++ [rec]) st).1.stats with
                    batches_completed :=
                      (processBatch env cfg (batch ++ [rec]) st).1.stats.batches_completed + 1 }
                  errorLog := [] } _
              refine ⟨noWriteEvents_append (noWriteEvents_append (noWriteEvents_append ?_ ?_)
                (noWriteEvents_sleepEvs _)) h1, by rw [h2]; exact hb2⟩
              · exact noWriteEvents_cons
                  ⟨fun _ h => Event.noConfusion h, fun _ _ h => Event.noConfusion h⟩
                  (noWriteEvents_cons
                    ⟨fun _ h => Event.noConfusion h, fun _ _ h => Event.noConfusion h⟩ hb1)
              · exact noWriteEvents_cons
                  ⟨fun _ h => Event.noConfusion h, fun _ _ h => Event.noConfusion h⟩
                  (noWriteEvents_aeEvs _ _ _ _)
        · obtain ⟨h1, h2⟩ := ih (idx + 1) (batch ++ [rec]) st sess
          exact ⟨noWriteEvents_cons
            ⟨fun _ h => Event.noConfusion h, fun _ _ h => Event.noConfusion h⟩ h1, h2⟩

lemma imageExists_append_right (l extra : List SyncedImage)
    (u1 u2 : List (String × List Nat)) (r f : String)
    (hkey : (r, f) ∉ rowKeys extra) :
    imageExists ⟨l ++ extra, u1⟩ r f = imageExists ⟨l, u2⟩ r f := by
  unfold imageExists
  simp only [List.any_append]
  have hno : extra.any
      (fun row => decide (row.zoho_record_id = r ∧ row.field_name = f)) = false := by
    rw [List.any_eq_false]
    intro x hx hpx
    obtain ⟨h1, h2⟩ := of_decide_eq_true hpx
    exact hkey (List.mem_map.mpr ⟨x, hx, by rw [h1, h2]⟩)
  rw [hno, Bool.or_false]

lemma processAttachment_bisim (env : EngineEnv) (cfg : EngineCfg) (recId : String)
    (tags : List String) (category description : Option String) (zohoCreated : Option Nat)
    (a : Attachment) (w : World) (extra : List SyncedImage)
    (u : List (String × List Nat)) (s : Stats) (log : List ErrEntry)
    (hup : ∀ p b, env.uploadFile p b = Except.ok ())
    (hvalid : validUrl a.download_url = true)
    (hdl : ∃ bs, env.download a.download_url = Except.ok bs)
    (hkey : (recId, a.field_name) ∉ rowKeys extra) :
    ∃ (rows : List SyncedImage) (u' : List (String × List Nat)) (s' : Stats),
      rowKeys rows
        = (if imageExists w recId a.field_name = true then []
           else [(recId, a.field_name)])
      ∧ (processAttachment env { cfg with dry_run := true } recId tags category
          description zohoCreated a ⟨w, s, log⟩).1 = ⟨w, s', log⟩
      ∧ (processAttachment env { cfg with dry_run := false } recId tags category
          description zohoCreated a ⟨⟨w.images ++ extra, u⟩, s, log⟩).1
        = ⟨⟨(w.images ++ extra) ++ rows, u'⟩, s', log⟩ := by
  obtain ⟨bs, hbs⟩ := hdl
  have hsame : imageExists ⟨w.images ++ extra, u⟩ recId a.field_name
      = imageExists w recId a.field_name := by
    simpa using imageExists_append_right w.images extra u w.uploads recId a.field_name hkey
  cases hexw : imageExists w recId a.field_name with
  | true =>
    have hexReal : imageExists ⟨w.images ++ extra, u⟩ recId a.field_name = true := by
      rw [hsame, hexw]
    refine ⟨[], u, { s with images_skipped := s.images_skipped + 1 },
      by simp [rowKeys, hexw], ?_, ?_⟩
    · unfold processAttachment
      simp [hexw]
    · unfold processAttachment
      simp [hexReal]
  | false =>
    have hexReal : imageExists ⟨w.images ++ extra, u⟩ recId a.field_name = false := by
      rw [hsame, hexw]
    obtain ⟨row, u', evs, heq, hr1, hr2⟩ := attachmentUpload_success env
      { cfg with dry_run := false } recId tags category description zohoCreated a bs
      ⟨⟨w.images ++ extra, u⟩, s, log⟩ hup hexReal
    refine ⟨[row], u', { s with images_synced := s.images_synced + 1 },
      by simp [rowKeys, hexw, hr1, hr2], ?_, ?_⟩
    · unfold processAttachment
      simp [hexw]
    · unfold processAttachment
      simp [hexReal, hvalid, hbs, heq]

lemma rowKeys_append (l1 l2 : List SyncedImage) :
    rowKeys (l1 ++ l2) = rowKeys l1 ++ rowKeys l2 := by
  simp [rowKeys]

lemma processAtts_bisim (env : EngineEnv) (cfg : EngineCfg) (recId : String)
    (tags : List String) (category description : Option String) (zohoCreated : Option Nat)
    (hup : ∀ p b, env.uploadFile p b = Except.ok ()) :
    ∀ (atts : List Attachment) (w : World) (extra : List SyncedImage)
      (u : List (String × List Nat)) (s : Stats) (log : List ErrEntry),
      (∀ a ∈ atts, validUrl a.download_url = true
        ∧ ∃ bs, env.download a.download_url = Except.ok bs) →
      (rowKeys extra ++ atts.map (fun a => (recId, a.field_name))).Nodup →
      ∃ (rows : List SyncedImage) (u' : List (String × List Nat)) (s' : Stats),
        List.Sublist (rowKeys rows) (atts.map (fun a => (recId, a.field_name)))
        ∧ (processAtts env { cfg with dry_run := true } recId tags category description
            zohoCreated atts ⟨w, s, log⟩).1 = ⟨w, s', log⟩
        ∧ (processAtts env { cfg with dry_run := false } recId tags category description
            zohoCreated atts ⟨⟨w.images ++ extra, u⟩, s, log⟩).1
          = ⟨⟨(w.images ++ extra) ++ rows, u'⟩, s', log⟩ := by
  intro atts
  induction atts with
  | nil =>
    intro w extra u s log _ _
    exact ⟨[], u, s, by simp [rowKeys], rfl, by simp [processAtts]⟩
  | cons a as_ ih =>
    intro w extra u s log hatts hnodup
    have hkey : (recId, a.field_name) ∉ rowKeys extra := by
      intro hmem
      have hd := (List.nodup_append.mp hnodup).2.2
      exact hd hmem (List.mem_cons_self _ _)
    obtain ⟨rows1, u1, s1, hkeys1, hdry1, hreal1⟩ :=
      processAttachment_bisim env cfg recId tags category description zohoCreated a
        w extra u s log hup (hatts a (List.mem_cons_self a as_)).1
        (hatts a (List.mem_cons_self a as_)).2 hkey
    have hsub1 : List.Sublist (rowKeys rows1) [(recId, a.field_name)] := by
      rw [hkeys1]
      split
      · simp
      · exact List.Sublist.refl _
    have hnodup2 : (rowKeys (extra ++ rows1)
        ++ as_.map (fun a => (recId, a.field_name))).Nodup := by
      rw [rowKeys_append]
      refine List.Nodup.sublist ?_ hnodup
      rw [List.append_assoc]
      exact List.Sublist.append_left (hsub1.append_right _) _
    obtain ⟨rows2, u2, s2, hsub2, hdry2, hreal2⟩ :=
      ih w (extra ++ rows1) u1 s1 log
        (fun x hx => hatts x (List.mem_cons_of_mem a hx)) hnodup2
    refine ⟨rows1 ++ rows2, u2, s2, ?_, ?_, ?_⟩
    · rw [rowKeys_append]
      exact List.Sublist.append hsub1 hsub2
    · rw [processAtts]
      dsimp only
      rw [hdry1, hdry2]
    · rw [processAtts]
      dsimp only
      rw [hreal1]
      have hassoc : (⟨⟨(w.images ++ extra) ++ rows1, u1⟩, s1, log⟩ : BState)
          = ⟨⟨w.images ++ (extra ++ rows1), u1⟩, s1, log⟩ := by
        rw [List.append_assoc]
      rw [hassoc, hreal2]
      simp [List.append_assoc]

lemma attachmentKeys_cons (rec : Record) (recs : List Record) :
    attachmentKeys (rec :: recs)
      = rec.attachments.map (fun a => (rec.id, a.field_name)) ++ attachmentKeys recs := by
  simp [attachmentKeys]

lemma attachmentKeys_append (l1 l2 : List Record) :
    attachmentKeys (l1 ++ l2) = attachmentKeys l1 ++ attachmentKeys l2 := by
  simp [attachmentKeys]

lemma processBatch_bisim (env : EngineEnv) (cfg : EngineCfg)
    (hup : ∀ p b, env.uploadFile p b = Except.ok ()) :
    ∀ (recs : List Record) (w : World) (extra : List SyncedImage)
      (u : List (String × List Nat)) (s : Stats) (log : List ErrEntry),
      (∀ r ∈ recs, env.recordFault r = none ∧ ∀ a ∈ r.attachments,
        validUrl a.download_url = true
          ∧ ∃ bs, env.download a.download_url = Except.ok bs) →
      (rowKeys extra ++ attachmentKeys recs).Nodup →
      ∃ (rows : List SyncedImage) (u' : List (String × List Nat)) (s' : Stats),
        List.Sublist (rowKeys rows) (attachmentKeys recs)
        ∧ (processBatch env { cfg with dry_run := true } recs ⟨w, s, log⟩).1
            = ⟨w, s', log⟩
        ∧ (processBatch env { cfg with dry_run := false } recs
            ⟨⟨w.images ++ extra, u⟩, s, log⟩).1
            = ⟨⟨(w.images ++ extra) ++ rows, u'⟩, s', log⟩ := by
  intro recs
  induction recs with
  | nil =>
    intro w extra u s log _ _
    exact ⟨[], u, s, by simp [attachmentKeys, rowKeys], rfl, by simp [processBatch]⟩
  | cons rec recs ih =>
    intro w extra u s log hrecs hnodup
    have hf := (hrecs rec (List.mem_cons_self _ _)).1
    rw [attachmentKeys_cons] at hnodup
    obtain ⟨rows1, u1, s1, hsub1, hdryA, hrealA⟩ :=
      processAtts_bisim env cfg rec.id rec.tags rec.category rec.description
        rec.addedTime hup rec.attachments w extra u
        { s with records_processed := s.records_processed + 1 } log
        (hrecs rec (List.mem_cons_self _ _)).2
        (by
          refine List.Nodup.sublist ?_ hnodup
          rw [← List.append_assoc]
          exact List.sublist_append_left _ _)
    have hnodup2 : (rowKeys (extra ++ rows1) ++ attachmentKeys recs).Nodup := by
      rw [rowKeys_append]
      refine List.Nodup.sublist ?_ hnodup
      rw [List.append_assoc]
      exact List.Sublist.append_left (hsub1.append_right _) _
    obtain ⟨rows2, u2, s2, hsub2, hdryB, hrealB⟩ :=
      ih w (extra ++ rows1) u1 s1 log
        (fun x hx => hrecs x (List.mem_cons_of_mem rec hx)) hnodup2
    refine ⟨rows1 ++ rows2, u2, s2, ?_, ?_, ?_⟩
    · rw [rowKeys_append]
      exact List.Sublist.append hsub1 hsub2
    · rw [processBatch]
      simp only [processRecord, hf]
      rw [show ({ world := w, stats := s, errorLog := log } : BState).stats.records_processed
        = s.records_processed from rfl] at hdryA ⊢
      rw [hdryA, hdryB]
    · rw [processBatch]
      simp only [processRecord, hf]
      rw [hrealA]
      have hassoc : (⟨⟨(w.images ++ extra) ++ rows1, u1⟩, s1, log⟩ : BState)
          = ⟨⟨w.images ++ (extra ++ rows1), u1⟩, s1, log⟩ := by
        rw [List.append_assoc]
      rw [hassoc, hrealB]
      simp [List.append_assoc]

/-- Core of claim C6's count comparison: with a benign environment and
pairwise-distinct attachment keys, a dry loop and a real loop starting from
the same counters produce identical stats. -/
lemma syncLoop_bisim (env : EngineEnv) (cfg : EngineCfg)
    (hup : ∀ p b, env.uploadFile p b = Except.ok ()) :
    ∀ (remaining : List Record) (idx : Nat) (batch : List Record) (w : World)
      (extra : List SyncedImage) (u : List (String × List Nat)) (s : Stats)
      (log : List ErrEntry) (sess : Session),
      (∀ r ∈ batch ++ remaining, env.recordFault r = none ∧ ∀ a ∈ r.attachments,
        validUrl a.download_url = true
          ∧ ∃ bs, env.download a.download_url = Except.ok bs) →
      (rowKeys extra ++ attachmentKeys (batch ++ remaining)).Nodup →
      (syncLoop env { cfg with dry_run := false } remaining idx batch
          ⟨⟨w.images ++ extra, u⟩, s, log⟩ sess).stats
        = (syncLoop env { cfg with dry_run := true } remaining idx batch
            ⟨w, s, log⟩ sess).stats := by
  intro remaining
  induction remaining with
  | nil =>
    intro idx batch w extra u s log sess hall hnodup
    rw [List.append_nil] at hall hnodup
    simp only [syncLoop]
    dsimp only
    split
    · rfl
    · obtain ⟨rows, u', s', hsub, hdryB, hrealB⟩ :=
        processBatch_bisim env cfg hup batch w extra u s log hall hnodup
      rw [hdryB, hrealB]
  | cons rec rest ih =>
    intro idx batch w extra u s log sess hall hnodup
    have hall2 : ∀ r ∈ (batch ++ [rec]) ++ rest,
        env.recordFault r = none ∧ ∀ a ∈ r.attachments,
          validUrl a.download_url = true
            ∧ ∃ bs, env.download a.download_url = Except.ok bs := by
      rw [List.append_assoc]
      exact hall
    have hkeys : attachmentKeys (batch ++ rec :: rest)
        = attachmentKeys (batch ++ [rec]) ++ attachmentKeys rest := by
      simp [attachmentKeys]
    simp only [syncLoop]
    dsimp only
    split
    · exact ih (idx + 1) batch w extra u s log sess
        (fun r hr => hall r (by
          rcases List.mem_append.mp hr with h | h
          · exact List.mem_append_left _ h
          · exact List.mem_append_right _ (List.mem_cons_of_mem _ h)))
        (by
          refine List.Nodup.sublist ?_ hnodup
          refine List.Sublist.append_left ?_ _
          rw [attachmentKeys_append, attachmentKeys_append, attachmentKeys_cons]
          exact List.Sublist.append_left (List.sublist_append_right _ _) _)
    · split
      · exact ih idx batch w extra u s log sess
          (fun r hr => hall r (by
            rcases List.mem_append.mp hr with h | h
            · exact List.mem_append_left _ h
            · exact List.mem_append_right _ (List.mem_cons_of_mem _ h)))
          (by
            refine List.Nodup.sublist ?_ hnodup
            refine List.Sublist.append_left ?_ _
            rw [attachmentKeys_append, attachmentKeys_append, attachmentKeys_cons]
            exact List.Sublist.append_left (List.sublist_append_right _ _) _)
      · split
        · obtain ⟨rows, u', s', hsub, hdryB, hrealB⟩ :=
            processBatch_bisim env cfg hup (batch ++ [rec]) w extra u s log
              (fun r hr => hall2 r (List.mem_append_left _ hr))
              (by
                rw [hkeys] at hnodup
                refine List.Nodup.sublist ?_ hnodup
                rw [← List.append_assoc]
                exact List.sublist_append_left _ _)
          rw [hdryB, hrealB]
          dsimp only
          split
          · rfl
          · split
            · rfl
            · rw [List.append_assoc]
              refine ih (idx + 1) [] w (extra ++ rows) u' _ [] _
                (fun r hr => hall r (List.mem_append_right _
                  (List.mem_cons_of_mem _ (by simpa using hr))))
                (by
                  rw [hkeys] at hnodup
                  refine List.Nodup.sublist ?_ hnodup
                  rw [rowKeys_append, List.nil_append, List.append_assoc]
                  refine List.Sublist.append_left ?_ _
                  exact List.Sublist.append hsub (List.Sublist.refl _))
        · exact ih (idx + 1) (batch ++ [rec]) w extra u s log sess hall2
            (by
              rw [List.append_assoc]
              exact hnodup)

/-- The loop's final stats do not depend on the session row being threaded:
the session only receives writes, and the pause/cancel signals are indexed by
the in-memory batch counter. -/
lemma syncLoop_stats_congr (env : EngineEnv) (cfg : EngineCfg) :
    ∀ (remaining : List Record) (idx : Nat) (batch : List Record) (st : BState)
      (sess sess' : Session),
      (syncLoop env cfg remaining idx batch st sess).stats
        = (syncLoop env cfg remaining idx batch st sess').stats := by
  intro remaining
  induction remaining with
  | nil =>
    intro idx batch st sess sess'
    simp only [syncLoop]
    split
    · rfl
    · rfl
  | cons rec rest ih =>
    intro idx batch st sess sess'
    simp only [syncLoop]
    split
    · exact ih (idx + 1) batch st sess sess'
    · split
      · exact ih idx batch st sess sess'
      · split
        · split
          · rfl
          · split
            · rfl
            · exact ih (idx + 1) [] _ _ _
        · exact ih (idx + 1) (batch ++ [rec]) st sess sess'

/-- C6: a dry run writes nothing and leaves the image table untouched, and —
whenever the environment is benign for the whole source (uploads succeed, no
record-level fault, every attachment has a valid URL and a downloadable
payload) and the source's attachment (record id, field name) keys are
pairwise distinct — its final `images_synced` equals that of the identical
session run with `dry_run` cleared.  Without those side conditions the count
equality fails (see the counterexample: a real run that errors on an
attachment counts fewer). -/
theorem claim6_dry_run_frame (env : EngineEnv) (processor : ImageProcessor)
    (sess : Session) (source : List Record) (w : World)
    (hdry : sess.dry_run = true) :
    NoWriteEvents (runBatchSync env processor sess source w).events
    ∧ (runBatchSync env processor sess source w).world = w
    ∧ (envAllOk env source → (attachmentKeys source).Nodup →
        (runBatchSync env processor sess source w).stats.images_synced
          = (runBatchSync env processor { sess with dry_run := false }
              source w).stats.images_synced) := by
  simp only [runBatchSync]
  rw [hdry]
  have hframe := syncLoop_dry env
    { processor := processor, batch_size := sess.batch_size
      delay_between_batches := sess.delay_between_batches, date_to := sess.date_to
      dry_run := true, current_offset := sess.current_offset } rfl source 0 []
    { world := w, stats := sess.loadStats, errorLog := [] }
    (sess.setStatus "running")
  refine ⟨?_, ?_, ?_⟩
  · exact noWriteEvents_cons
      ⟨fun _ h => Event.noConfusion h, fun _ _ h => Event.noConfusion h⟩ hframe.1
  · exact hframe.2
  · intro hok hnd
    obtain ⟨hup, hrec⟩ := hok
    have hb := syncLoop_bisim env
      { processor := processor, batch_size := sess.batch_size
        delay_between_batches := sess.delay_between_batches, date_to := sess.date_to
        dry_run := true, current_offset := sess.current_offset } hup source 0 [] w []
      w.uploads sess.loadStats [] (sess.setStatus "running")
      (fun r hr => hrec r (by simpa using hr))
      (by simpa [rowKeys] using hnd)
    rw [List.append_nil] at hb
    have hc := syncLoop_stats_congr env
      { processor := processor, batch_size := sess.batch_size
        delay_between_batches := sess.delay_between_batches, date_to := sess.date_to
        dry_run := false, current_offset := sess.current_offset } source 0 []
      { world := w, stats := sess.loadStats, errorLog := [] }
      (sess.setStatus "running")
      (Session.setStatus { sess with dry_run := false } "running")
    exact congrArg Stats.images_synced (hb.symm.trans hc)

/-- Witness for C6 at a concrete benign input: one record with one valid
attachment, working downloads and uploads, distinct keys. -/
theorem claim6_witness :
    (mkSession 1 none true).dry_run = true
    ∧ envAllOk envOk [recGood] ∧ (attachmentKeys [recGood]).Nodup
    ∧ (runBatchSync envOk ImageProcessor.default (mkSession 1 none true)
        [recGood] emptyWorld).stats.images_synced
      = (runBatchSync envOk ImageProcessor.default
          { mkSession 1 none true with dry_run := false }
          [recGood] emptyWorld).stats.images_synced := by
  have hok : envAllOk envOk [recGood] := by
    refine ⟨fun _ _ => rfl, ?_⟩
    intro r hr
    rw [List.mem_singleton] at hr
    subst hr
    refine ⟨rfl, ?_⟩
    intro a ha
    rw [show recGood.attachments = [goodAtt] from rfl, List.mem_singleton] at ha
    subst ha
    exact ⟨by decide, ⟨_, rfl⟩⟩
  exact ⟨rfl, hok, by decide,
    (claim6_dry_run_frame envOk ImageProcessor.default (mkSession 1 none true)
      [recGood] emptyWorld rfl).2.2 hok (by decide)⟩

/-- Counterexample to C6 as stated: over a source whose only attachment has
an invalid URL, the dry run counts `images_synced = 1` while the real run of
the identical session counts `0` (it records an error instead), so a dry run
does not increment `images_synced` identically to a real run in general. -/
theorem claim6_counterexample :
    run6real = runBatchSync envIdle ImageProcessor.default
        { mkSession 1 none true with dry_run := false } [recBadUrl] emptyWorld
    ∧ run6dry.stats.images_synced = 1
    ∧ run6real.stats.images_synced = 0 := by
  refine ⟨rfl, ?_, ?_⟩ <;> decide

/-! ### Claims about the image normalizer -/

/-- C8: for every image payload whose byte length does not exceed the
configured size threshold, `process_if_needed` returns the bytes unchanged
with `was_processed = false`, and only corrects the filename extension
(by `_ensure_extension`'s magic-byte sniffing). -/
theorem claim8_below_threshold_passthrough (p : ImageProcessor) (env : PILEnv)
    (image_bytes : List Nat) (filename : String)
    (h : image_bytes.length ≤ p.max_size_bytes) :
    p.process_if_needed env image_bytes filename
      = (image_bytes, ImageProcessor.ensure_extension env image_bytes filename, false) := by
  have hb : p.needs_processing image_bytes = false := by
    simp only [ImageProcessor.needs_processing, decide_eq_false_iff_not, not_lt]
    exact h
  simp [ImageProcessor.process_if_needed, hb]

/-- C8 witness: a 50 KB PNG payload with a `.dat` filename under the default
5 MB threshold comes back byte-identical, renamed to `.png`, not
normalized. -/
theorem claim8_witness :
    png50k.length ≤ ImageProcessor.default.max_size_bytes
    ∧ ImageProcessor.default.process_if_needed pilNone png50k "photo.dat"
        = (png50k, "photo.png", false) := by
  have hlen : png50k.length = 51200 := by
    rw [png50k, List.length_append, List.length_replicate]
    decide
  have hle : png50k.length ≤ ImageProcessor.default.max_size_bytes := by
    rw [hlen]; norm_num [ImageProcessor.default]
  refine ⟨hle, ?_⟩
  rw [claim8_below_threshold_passthrough ImageProcessor.default pilNone png50k "photo.dat" hle]
  have hdet : ImageProcessor.detect_format pilNone png50k = ".png" := by
    unfold ImageProcessor.detect_format
    rw [hlen]
    decide
  have hext : ImageProcessor.ensure_extension pilNone png50k "photo.dat" = "photo.png" := by
    unfold ImageProcessor.ensure_extension
    rw [hdet]
    decide
  rw [hext]

/-- C9: an above-threshold decodable image with a dimension over
`max_dimension` is resized with the single ratio
`min(max_dim/width, max_dim/height)` applied to both axes and truncated to
integers, and is re-encoded to WebP (with the filename renamed to
`.webp`). -/
theorem claim9_resize_single_ratio (p : ImageProcessor) (env : PILEnv)
    (image_bytes : List Nat) (filename : String) (img : PILImage)
    (hneeds : p.needs_processing image_bytes = true)
    (hdec : env.decode image_bytes = some img)
    (hdim : p.max_dimension < img.width ∨ p.max_dimension < img.height) :
    (∃ imgOut : PILImage,
        p.process_if_needed env image_bytes filename
          = (env.encodeWebP imgOut p.quality, baseName filename ++ ".webp", true)
        ∧ imgOut.width = (resizeDims p.max_dimension img.width img.height).1
        ∧ imgOut.height = (resizeDims p.max_dimension img.width img.height).2)
    ∧ resizeDims p.max_dimension img.width img.height
        = ((⌊(img.width : ℚ) * min ((p.max_dimension : ℚ) / img.width)
              ((p.max_dimension : ℚ) / img.height)⌋).toNat,
           (⌊(img.height : ℚ) * min ((p.max_dimension : ℚ) / img.width)
              ((p.max_dimension : ℚ) / img.height)⌋).toNat) := by
  constructor
  · by_cases hmode : img.mode = "RGBA" ∨ img.mode = "P"
    · refine ⟨PILImage.mk (resizeDims p.max_dimension img.width img.height).1
        (resizeDims p.max_dimension img.width img.height).2 "RGB" img.format,
        ?_, rfl, rfl⟩
      simp [ImageProcessor.process_if_needed, hneeds, ImageProcessor.process, hdec,
        hmode, hdim]
    · refine ⟨PILImage.mk (resizeDims p.max_dimension img.width img.height).1
        (resizeDims p.max_dimension img.width img.height).2 img.mode img.format,
        ?_, rfl, rfl⟩
      simp [ImageProcessor.process_if_needed, hneeds, ImageProcessor.process, hdec,
        hmode, hdim]
  · rfl

/-- C9 witness: a 6000×3000 image with `max_dimension = 4000` and a payload
over the (here 2-byte) threshold resizes to exactly 4000×2000. -/
theorem claim9_witness :
    (∃ imgOut : PILImage,
        ({ max_dimension := 4000, quality := 85, max_size_bytes := 2
           : ImageProcessor }).process_if_needed pilBig [1, 2, 3] "a.jpg"
          = (pilBig.encodeWebP imgOut 85, baseName "a.jpg" ++ ".webp", true)
        ∧ imgOut.width = (resizeDims 4000 6000 3000).1
        ∧ imgOut.height = (resizeDims 4000 6000 3000).2)
    ∧ resizeDims 4000 6000 3000 = (4000, 2000) := by
  have h := claim9_resize_single_ratio
    { max_dimension := 4000, quality := 85, max_size_bytes := 2 } pilBig
    [1, 2, 3] "a.jpg" { width := 6000, height := 3000, mode := "RGB", format := "JPEG" }
    (by decide) (by decide) (by decide)
  refine ⟨h.1, ?_⟩
  unfold resizeDims
  have hmin : ((4000 : ℕ) : ℚ) / ((6000 : ℕ) : ℚ) ⊓ ((4000 : ℕ) : ℚ) / ((3000 : ℕ) : ℚ)
      = 2 / 3 := by
    push_cast
    rw [min_eq_left (by norm_num)]
    norm_num
  rw [hmin]
  have h1 : ((6000 : ℕ) : ℚ) * (2 / 3) = ((4000 : ℕ) : ℚ) := by push_cast; norm_num
  have h2 : ((3000 : ℕ) : ℚ) * (2 / 3) = ((2000 : ℕ) : ℚ) := by push_cast; norm_num
  show ((⌊((6000 : ℕ) : ℚ) * (2 / 3)⌋).toNat, (⌊((3000 : ℕ) : ℚ) * (2 / 3)⌋).toNat)
    = (4000, 2000)
  rw [h1, h2, Int.floor_natCast, Int.floor_natCast]
  rfl

/-- C10 (amended): an over-threshold payload that fails to decode comes back
with the original bytes and filename unchanged and no exception — but with
`was_processed = true`: the flag records that normalization was attempted
(the threshold was exceeded), not that the bytes were altered. -/
theorem claim10_decode_failure_passthrough (p : ImageProcessor) (env : PILEnv)
    (image_bytes : List Nat) (filename : String)
    (hneeds : p.needs_processing image_bytes = true)
    (hdec : env.decode image_bytes = none) :
    p.process_if_needed env image_bytes filename = (image_bytes, filename, true) := by
  simp [ImageProcessor.process_if_needed, hneeds, ImageProcessor.process, hdec]

/-- C10 witness: a one-byte undecodable payload over a zero threshold. -/
theorem claim10_witness :
    procTiny.needs_processing [7] = true ∧ pilNone.decode [7] = none
    ∧ procTiny.process_if_needed pilNone [7] "x" = ([7], "x", true) := by
  exact ⟨by decide, rfl,
    claim10_decode_failure_passthrough procTiny pilNone [7] "x" (by decide) rfl⟩

/-- C10 counterexample: the claim says `was_normalized` indicates whether
normalization actually altered the bytes; here the flag is `true` while the
output bytes are identical to the input. -/
theorem claim10_counterexample :
    (procTiny.process_if_needed pilNone [7] "x").2.2 = true
    ∧ (procTiny.process_if_needed pilNone [7] "x").1 = [7]
    ∧ ¬ ((procTiny.process_if_needed pilNone [7] "x").2.2 = true
          ↔ (procTiny.process_if_needed pilNone [7] "x").1 ≠ [7]) := by
  refine ⟨by decide, by decide, ?_⟩
  intro hiff
  exact (hiff.mp (by decide)) (by decide)

/-! ### Claim about the client's retry policy -/

/-- C7 (the code deviates from the claim): the source defines the
`with_retry` decorator — `stop_after_attempt(3)` with exponential backoff,
modelled by `retriedRequest` — but never applies it: on a transient
transport failure of the first attempt, `_make_request` (and the page fetch
of `fetch_records`, which catches only 429) propagates the failure after
exactly one attempt, while the decorated version would have succeeded on
the second attempt. -/
theorem claim7_retry_defined_but_unapplied :
    (makeRequest env7 0).1 = Except.error (ReqError.network "connection reset")
    ∧ (makeRequest env7 0).2 = 1
    ∧ (fetchPageRequest env7 5 0).1 = Except.error (ReqError.network "connection reset")
    ∧ (fetchPageRequest env7 5 0).2 = 1
    ∧ (retriedRequest env7 3 0).1 = Except.ok "page"
    ∧ (retriedRequest env7 3 0).2 = 2 := by
  exact ⟨rfl, rfl, rfl, rfl, rfl, rfl⟩

end PicSync
